import Mathlib

/-!
Verification of the miniC compiler core against its specification.

The C++ sources are shallowly embedded: pure fragments become Lean
functions, the stateful visitors (semantic analyzer, IR generator,
code generator, lexers) thread explicit state records, and every
throwing routine returns an Except value whose error string mirrors
the C++ exception message.
-/

namespace MiniC

/-- Decimal digit character for a value below ten, mirroring the
characters produced by std::to_string. -/
def digitChar : Nat → Char
  | 0 => '0'
  | 1 => '1'
  | 2 => '2'
  | 3 => '3'
  | 4 => '4'
  | 5 => '5'
  | 6 => '6'
  | 7 => '7'
  | 8 => '8'
  | 9 => '9'
  | _ => '*'

/-- Little-endian digit characters of a natural number, with explicit
fuel so that the definition is structural and kernel-reducible. -/
def natRevAux : Nat → Nat → List Char
  | 0, _ => []
  | _ + 1, 0 => []
  | fuel + 1, n + 1 => digitChar ((n + 1) % 10) :: natRevAux fuel ((n + 1) / 10)

/-- Little-endian digit characters of a natural number. -/
def natRev (n : Nat) : List Char := natRevAux n n

/-- Decimal rendering of a natural number, as produced by
std::to_string on a non-negative value. -/
def natRepr (n : Nat) : String :=
  if n = 0 then "0" else ⟨(natRev n).reverse⟩

/-- Decimal rendering of a C++ int, as produced by std::to_string. -/
def intRepr (v : Int) : String :=
  if v < 0 then "-" ++ natRepr (-v).toNat else natRepr v.toNat

/-- Numeric value of a little-endian digit-character list; used to
prove that decimal rendering is injective. -/
def valRev : List Char → Nat
  | [] => 0
  | c :: cs => (c.toNat - 48) + 10 * valRev cs

theorem digitChar_toNat_sub (d : Nat) (h : d < 10) :
    (digitChar d).toNat - 48 = d := by
  interval_cases d <;> decide

theorem digitChar_isDigit (d : Nat) (h : d < 10) : (digitChar d).isDigit := by
  interval_cases d <;> decide

theorem valRev_natRevAux (fuel : Nat) :
    ∀ n, n ≤ fuel → valRev (natRevAux fuel n) = n := by
  induction fuel with
  | zero =>
    intro n hn
    interval_cases n
    simp [natRevAux, valRev]
  | succ fuel ih =>
    intro n hn
    match n with
    | 0 => simp [natRevAux, valRev]
    | m + 1 =>
      have hdiv : (m + 1) / 10 ≤ fuel := by
        have h1 : (m + 1) / 10 < m + 1 := Nat.div_lt_self (Nat.succ_pos m) (by omega)
        omega
      have hmod : (m + 1) % 10 < 10 := Nat.mod_lt _ (by omega)
      simp only [natRevAux, valRev]
      rw [digitChar_toNat_sub _ hmod, ih _ hdiv]
      omega

theorem valRev_natRev (n : Nat) : valRev (natRev n) = n :=
  valRev_natRevAux n n (Nat.le_refl n)

theorem natRevAux_isDigit (fuel : Nat) :
    ∀ n c, c ∈ natRevAux fuel n → c.isDigit := by
  induction fuel with
  | zero => intro n c hc; simp [natRevAux] at hc
  | succ fuel ih =>
    intro n c hc
    match n with
    | 0 => simp [natRevAux] at hc
    | m + 1 =>
      simp only [natRevAux, List.mem_cons] at hc
      rcases hc with hc | hc
      · exact hc ▸ digitChar_isDigit _ (Nat.mod_lt _ (by omega))
      · exact ih _ _ hc

theorem natRepr_isDigit (n : Nat) : ∀ c ∈ (natRepr n).data, c.isDigit := by
  intro c hc
  by_cases h : n = 0
  · subst h; simp [natRepr] at hc; subst hc; decide
  · simp only [natRepr, if_neg h] at hc
    exact natRevAux_isDigit n n c (List.mem_reverse.mp hc)

theorem natRepr_injective : Function.Injective natRepr := by
  intro a b hab
  by_cases ha : a = 0 <;> by_cases hb : b = 0
  · omega
  · exfalso
    have := congrArg (fun s : String => valRev s.data.reverse) hab
    simp only [natRepr, if_pos ha, if_neg hb] at this
    simp only [List.reverse_reverse] at this
    rw [valRev_natRev] at this
    simp [valRev] at this
    omega
  · exfalso
    have := congrArg (fun s : String => valRev s.data.reverse) hab
    simp only [natRepr, if_neg ha, if_pos hb] at this
    simp only [List.reverse_reverse] at this
    rw [valRev_natRev] at this
    simp [valRev] at this
    omega
  · have := congrArg (fun s : String => valRev s.data.reverse) hab
    simp only [natRepr, if_neg ha, if_neg hb] at this
    simp only [List.reverse_reverse] at this
    rw [valRev_natRev, valRev_natRev] at this
    exact this

/-- Label built by IRGenerator.new_label: prefix, underscore, counter. -/
def mkLabel (p : String) (n : Nat) : String := p ++ "_" ++ natRepr n

/-- Trailing digit run of a string, read from the right. -/
def sfx (s : String) : List Char := s.data.reverse.takeWhile Char.isDigit

theorem takeWhile_append_not {P : Char → Bool} (l1 : List Char) (x : Char)
    (l2 : List Char) (h1 : ∀ c ∈ l1, P c) (hx : ¬ P x) :
    (l1 ++ x :: l2).takeWhile P = l1 := by
  induction l1 with
  | nil => simp [List.takeWhile, hx]
  | cons a rest ih =>
    have ha : P a := h1 a (List.mem_cons_self a rest)
    simp only [List.cons_append, List.takeWhile_cons, ha, ite_true]
    rw [ih (fun c hc => h1 c (List.mem_cons_of_mem a hc))]

theorem sfx_mkLabel (p : String) (n : Nat) :
    sfx (mkLabel p n) = (natRepr n).data.reverse := by
  have hdata : (mkLabel p n).data = p.data ++ ('_' :: (natRepr n).data) := by
    simp [mkLabel, String.data_append]
  simp only [sfx, hdata, List.reverse_append, List.reverse_cons]
  rw [List.append_assoc]
  exact takeWhile_append_not _ '_' _
    (fun c hc => natRepr_isDigit n c (List.mem_reverse.mp hc)) (by decide)

theorem mkLabel_ne_of_ne {p q : String} {n m : Nat} (h : n ≠ m) :
    mkLabel p n ≠ mkLabel q m := by
  intro heq
  have hs : sfx (mkLabel p n) = sfx (mkLabel q m) := by rw [heq]
  rw [sfx_mkLabel, sfx_mkLabel] at hs
  have : (natRepr n).data = (natRepr m).data := by
    have := congrArg List.reverse hs
    simpa using this
  have hstr : natRepr n = natRepr m := by
    rcases hα : natRepr n with ⟨d1⟩
    rcases hβ : natRepr m with ⟨d2⟩
    rw [hα, hβ] at this
    exact congrArg String.mk this
  exact h (natRepr_injective hstr)

/-! ## Token model (include/miniC/Token.hpp, unified token-kind set) -/

/-- Token kinds of the miniC lexer: the union used by the canonical
sources (Lexer.cpp, Parser, SemanticAnalyzer, IRGenerator). -/
inductive TokenType where
  | KEYWORD_INT | KEYWORD_VOID | KEYWORD_IF | KEYWORD_ELSE
  | KEYWORD_WHILE | KEYWORD_RETURN | KEYWORD_STR
  | IDENTIFIER | LITERAL_INT | LITERAL_STRING
  | OP_PLUS | OP_MINUS | OP_MULTIPLY | OP_DIVIDE
  | OP_ASSIGN | OP_EQUAL | OP_NOT_EQUAL | OP_NOT
  | OP_LESS | OP_GREATER | OP_LESS_EQ | OP_GREATER_EQ
  | LPAREN | RPAREN | LBRACE | RBRACE | COLON | COMMA | SEMICOLON
  | INDENT | DEDENT | NEWLINE
  | END_OF_FILE
  deriving DecidableEq, Repr

/-- Payload of a token: std::variant of int and string; the
default-constructed variant holds int 0. -/
inductive TokenValue where
  | vint (i : Int)
  | vstr (s : String)
  deriving DecidableEq, Repr

/-- Token record: kind, payload, 1-based line and column. -/
structure Token where
  type : TokenType
  value : TokenValue
  line : Nat
  column : Nat
  deriving DecidableEq, Repr

/-! ## AST model (include/minic/AST.hpp family) -/

/-- Expression nodes: IntLiteral, StringLiteral, Identifier,
UnaryExpr and BinaryExpr. The literal payload is a C++ int. -/
inductive Expr where
  | intLit (value : Int)
  | strLit (value : String)
  | ident (name : String)
  | unary (op : TokenType) (operand : Expr)
  | binary (left : Expr) (op : TokenType) (right : Expr)
  deriving DecidableEq, Repr

/-- Statement nodes: VarDeclStmt, AssignStmt, ReturnStmt, IfStmt,
WhileStmt, with statement lists as bodies. -/
inductive Stmt where
  | varDecl (type : TokenType) (name : String) (initializer : Option Expr)
  | assign (name : String) (value : Expr)
  | ret (value : Option Expr)
  | ifS (condition : Expr) (thenBranch : List Stmt) (elseBranch : List Stmt)
  | whileS (condition : Expr) (body : List Stmt)

/-- Function parameter: type token and name. -/
structure Parameter where
  type : TokenType
  name : String
  deriving DecidableEq, Repr

/-- Function definition node. -/
structure Function where
  name : String
  return_type : TokenType
  parameters : List Parameter
  body : List Stmt

/-- Program root node. -/
structure Program where
  functions : List Function

/-! ## Semantic analyzer (src/src/SemanticAnalyzer.cpp)

The analyzer object holds a stack of symbol tables, a global function
table and the current function return type; visit methods mutate the
object and throw SemanticError on violations.  The embedding threads
the object state explicitly and returns errors as Except values.
Symbol tables are association lists whose insert prepends, which has
the same lookup semantics as std::unordered_map assignment.  Error
messages that embed static_cast<int>(TokenType) in C++ use an integer
index of the token kind here; no claim depends on those numbers. -/

/-- Symbol table: identifier to declared type. -/
def Scope := List (String × TokenType)

instance : DecidableEq Scope := by unfold Scope; infer_instance

/-- Lookup in an association list, first binding wins. -/
def mfind (m : List (String × TokenType)) (k : String) : Option TokenType :=
  match m with
  | [] => none
  | (a, v) :: rest => if a = k then some v else mfind rest k

/-- Integer index of a token kind, standing in for
static_cast<int>(TokenType) inside error messages. -/
def ttIdx : TokenType → Nat
  | .KEYWORD_INT => 0 | .KEYWORD_VOID => 1 | .KEYWORD_IF => 2
  | .KEYWORD_ELSE => 3 | .KEYWORD_WHILE => 4 | .KEYWORD_RETURN => 5
  | .KEYWORD_STR => 6 | .IDENTIFIER => 7 | .LITERAL_INT => 8
  | .LITERAL_STRING => 9 | .OP_PLUS => 10 | .OP_MINUS => 11
  | .OP_MULTIPLY => 12 | .OP_DIVIDE => 13 | .OP_ASSIGN => 14
  | .OP_EQUAL => 15 | .OP_NOT_EQUAL => 16 | .OP_NOT => 17
  | .OP_LESS => 18 | .OP_GREATER => 19 | .OP_LESS_EQ => 20
  | .OP_GREATER_EQ => 21 | .LPAREN => 22 | .RPAREN => 23
  | .LBRACE => 24 | .RBRACE => 25 | .COLON => 26 | .COMMA => 27
  | .SEMICOLON => 28 | .INDENT => 29 | .DEDENT => 30 | .NEWLINE => 31
  | .END_OF_FILE => 32

/-- Rendering of a token kind inside analyzer error messages. -/
def ttRepr (t : TokenType) : String := natRepr (ttIdx t)

/-- SemanticAnalyzer.get_type: walk the scope stack top-down; throw
if the name is not declared. -/
def getType (scopes : List Scope) (name : String) : Except String TokenType :=
  match scopes with
  | [] => .error ("Variable '" ++ name ++ "' not declared")
  | s :: rest =>
    match mfind s name with
    | some t => .ok t
    | none => getType rest name

/-- SemanticAnalyzer.infer_type.  The dynamic_cast chain recognizes
IntLiteral, StringLiteral, Identifier and BinaryExpr; every other
node, including UnaryExpr, falls through to the failure branch. -/
def inferType (scopes : List Scope) : Expr → Except String TokenType
  | .intLit _ => .ok .KEYWORD_INT
  | .strLit _ => .ok .KEYWORD_STR
  | .ident n => getType scopes n
  | .binary l _ r => do
    let lt ← inferType scopes l
    let rt ← inferType scopes r
    if lt = .KEYWORD_INT ∧ rt = .KEYWORD_INT then .ok .KEYWORD_INT
    else .error "Type inference failed for binary expression"
  | .unary _ _ => .error "Cannot infer type for unknown expression"

/-- SemanticAnalyzer.validate_binary_op. -/
def validateBinaryOp (op lt rt : TokenType) : Except String Unit :=
  let isArith := op = .OP_PLUS ∨ op = .OP_MINUS ∨ op = .OP_MULTIPLY ∨ op = .OP_DIVIDE
  let isComp := op = .OP_EQUAL ∨ op = .OP_NOT_EQUAL ∨ op = .OP_LESS ∨
    op = .OP_LESS_EQ ∨ op = .OP_GREATER ∨ op = .OP_GREATER_EQ
  if isArith ∨ isComp then
    if lt ≠ .KEYWORD_INT ∨ rt ≠ .KEYWORD_INT then
      .error "Operands for operator must be int"
    else .ok ()
  else .error "Unsupported binary operator"

/-- SemanticAnalyzer.visit(const Expr&).  UnaryExpr again falls
through to the unknown-expression failure branch. -/
def visitExpr (scopes : List Scope) : Expr → Except String Unit
  | .ident n => do
    let _ ← getType scopes n
    .ok ()
  | .binary l op r => do
    visitExpr scopes l
    visitExpr scopes r
    let lt ← inferType scopes l
    let rt ← inferType scopes r
    validateBinaryOp op lt rt
  | .intLit _ => .ok ()
  | .strLit _ => .ok ()
  | .unary _ _ => .error "Unknown expression type"

/-- Membership test in the innermost scope
(SemanticAnalyzer.is_declared_in_current_scope). -/
def declaredInCurrent (scopes : List Scope) (name : String) : Bool :=
  match scopes with
  | [] => false
  | s :: _ => (mfind s name).isSome

/-- Insert a binding into the innermost scope. -/
def insertCurrent (scopes : List Scope) (name : String) (t : TokenType) :
    List Scope :=
  match scopes with
  | [] => []
  | s :: rest => ((name, t) :: s) :: rest

/-- SemanticAnalyzer.pop_scope. -/
def popScope (scopes : List Scope) : Except String (List Scope) :=
  match scopes with
  | [] => .error "Scope stack underflow"
  | _ :: rest => .ok rest

mutual

/-- SemanticAnalyzer.visit(const Stmt&): dispatch over the statement
variants, threading the scope stack; the current function return type
is read-only here, and the function table is never touched. -/
def visitStmt (scopes : List Scope) (current : TokenType) :
    Stmt → Except String (List Scope)
  | .varDecl t n initializer =>
    if declaredInCurrent scopes n then
      .error ("Variable '" ++ n ++ "' redeclared in current scope")
    else if t = .KEYWORD_VOID then
      .error ("Cannot declare variable '" ++ n ++ "' as void")
    else
      let scopes1 := insertCurrent scopes n t
      match initializer with
      | none => .ok scopes1
      | some e => do
        visitExpr scopes1 e
        let it ← inferType scopes1 e
        if it ≠ t then
          .error ("Type mismatch in declaration of '" ++ n ++ "': expected " ++
            ttRepr t ++ ", got " ++ ttRepr it)
        else .ok scopes1
  | .assign n v => do
    let vt ← getType scopes n
    if vt = .KEYWORD_VOID then
      .error ("Cannot assign to void variable '" ++ n ++ "'")
    else do
      visitExpr scopes v
      let et ← inferType scopes v
      if vt ≠ et then
        .error ("Type mismatch in assignment to '" ++ n ++ "': expected " ++
          ttRepr vt ++ ", got " ++ ttRepr et)
      else .ok scopes
  | .ret value =>
    match value with
    | some e => do
      visitExpr scopes e
      let rt ← inferType scopes e
      if rt ≠ current then
        .error ("Return type mismatch: expected " ++ ttRepr current ++
          ", got " ++ ttRepr rt)
      else .ok scopes
    | none =>
      if current ≠ .KEYWORD_VOID then
        .error "Non-void function must return a value"
      else .ok scopes
  | .ifS c thenB elseB => do
    visitExpr scopes c
    let ct ← inferType scopes c
    if ct ≠ .KEYWORD_INT then
      .error ("If condition must be int type, got " ++ ttRepr ct)
    else do
      let s1 ← visitStmts ([] :: scopes) current thenB
      let s2 ← popScope s1
      let s3 ← visitStmts ([] :: s2) current elseB
      popScope s3
  | .whileS c body => do
    visitExpr scopes c
    let ct ← inferType scopes c
    if ct ≠ .KEYWORD_INT then
      .error ("While condition must be int type, got " ++ ttRepr ct)
    else do
      let s1 ← visitStmts ([] :: scopes) current body
      popScope s1

/-- Sequential analysis of a statement list. -/
def visitStmts (scopes : List Scope) (current : TokenType) :
    List Stmt → Except String (List Scope)
  | [] => .ok scopes
  | st :: rest => do
    let s1 ← visitStmt scopes current st
    visitStmts s1 current rest

end

/-- SemanticAnalyzer.visit(const Function&): declare the parameters
in the current scope, then analyze the body. -/
def visitFunction (scopes : List Scope) (f : Function) :
    Except String (List Scope) := do
  let s1 ← visitParams scopes f.parameters
  visitStmts s1 f.return_type f.body
where
  visitParams (scopes : List Scope) :
      List Parameter → Except String (List Scope)
    | [] => .ok scopes
    | p :: rest =>
      if declaredInCurrent scopes p.name then
        .error ("Parameter '" ++ p.name ++ "' redeclared")
      else visitParams (insertCurrent scopes p.name p.type) rest

/-- Analyzer object state: scope stack, function table, current
function return type. -/
structure SemState where
  scopes : List Scope
  functions : List (String × TokenType)
  currentType : TokenType
  deriving DecidableEq

/-- State of a freshly constructed SemanticAnalyzer: one (global)
scope, empty function table. -/
def initSemState : SemState := ⟨[[]], [], .KEYWORD_VOID⟩

/-- First loop of SemanticAnalyzer.visit(const Program&): register
every function, failing on a name already present in the table. -/
def registerFns (st : SemState) : List Function → Except String SemState
  | [] => .ok st
  | f :: rest =>
    if (mfind st.functions f.name).isSome then
      .error ("Function '" ++ f.name ++ "' redefined")
    else
      registerFns { st with functions := (f.name, f.return_type) :: st.functions } rest

/-- Second loop of SemanticAnalyzer.visit(const Program&): set the
current return type, push a scope, analyze the function, pop. -/
def analyzeFns (st : SemState) : List Function → Except String SemState
  | [] => .ok st
  | f :: rest => do
    let s1 ← visitFunction ([] :: st.scopes) f
    let s2 ← popScope s1
    analyzeFns { st with scopes := s2, currentType := f.return_type } rest

/-- SemanticAnalyzer.visit(const Program&), threading the analyzer
object state; a second call on the same object continues from the
state left by the first. -/
def visitProgram (p : Program) (st : SemState) : Except String SemState := do
  let st1 ← registerFns st p.functions
  analyzeFns st1 p.functions

theorem mfind_isSome_cons {m : List (String × TokenType)} {k : String}
    (k' : String) (v : TokenType) (h : (mfind m k).isSome) :
    (mfind ((k', v) :: m) k).isSome := by
  simp only [mfind]
  split <;> simp [h]

theorem registerFns_mono {l : List Function} :
    ∀ {st st' : SemState}, registerFns st l = .ok st' →
      ∀ k, (mfind st.functions k).isSome → (mfind st'.functions k).isSome := by
  induction l with
  | nil =>
    intro st st' h k hk
    simp only [registerFns] at h
    cases h
    exact hk
  | cons f rest ih =>
    intro st st' h k hk
    simp only [registerFns] at h
    split at h
    · cases h
    · exact ih h k (mfind_isSome_cons _ _ hk)

theorem registerFns_mem {l : List Function} :
    ∀ {st st' : SemState}, registerFns st l = .ok st' →
      ∀ f ∈ l, (mfind st'.functions f.name).isSome := by
  induction l with
  | nil => intro st st' h f hf; simp at hf
  | cons g rest ih =>
    intro st st' h f hf
    simp only [registerFns] at h
    split at h
    · cases h
    · rcases List.mem_cons.mp hf with hfg | hfr
      · subst hfg
        refine registerFns_mono h f.name ?_
        simp [mfind]
      · exact ih h f hfr

theorem analyzeFns_functions {l : List Function} :
    ∀ {st st' : SemState}, analyzeFns st l = .ok st' →
      st'.functions = st.functions := by
  induction l with
  | nil =>
    intro st st' h
    simp only [analyzeFns] at h
    cases h
    rfl
  | cons f rest ih =>
    intro st st' h
    simp only [analyzeFns, bind, Except.bind] at h
    cases hv : visitFunction ([] :: st.scopes) f with
    | error e => simp [hv] at h
    | ok s1 =>
      simp only [hv] at h
      cases hp : popScope s1 with
      | error e => simp [hp] at h
      | ok s2 =>
        simp only [hp] at h
        have h2 := ih h
        simpa using h2

/-- C1: the claim says the analyzer infers int for unary minus and
logical not on an int operand and accepts the enclosing program.  In
the code, SemanticAnalyzer.infer_type and visit(const Expr&) have no
UnaryExpr case, so every unary expression falls into the
unknown-expression failure branch and semantic analysis of any
program containing one fails; the parser and IR generator both
support unary nodes, so the analyzer omission is the slip. -/
theorem c1_unary_rejected_by_analyzer :
    (∀ (op : TokenType) (x : Expr) (scopes : List Scope),
      inferType scopes (Expr.unary op x) =
        Except.error "Cannot infer type for unknown expression") ∧
    (∀ (op : TokenType) (x : Expr) (scopes : List Scope),
      visitExpr scopes (Expr.unary op x) =
        Except.error "Unknown expression type") ∧
    visitProgram
        ⟨[⟨"main", .KEYWORD_INT, [],
          [Stmt.ret (some (Expr.unary .OP_MINUS (Expr.intLit 1)))]⟩]⟩
        initSemState =
      Except.error "Unknown expression type" := by
  refine ⟨fun op x s => rfl, fun op x s => rfl, rfl⟩

/-- C5, counterexample: on the program consisting of the single
function void main with empty body, the first visit succeeds but a
second visit on the same analyzer object fails with a
function-redefinition error, because the function table persists in
the analyzer; so the claim that calling visit(program) a second time
does not fail is false. -/
theorem c5_counterexample :
    (do
      let s1 ← visitProgram ⟨[⟨"main", .KEYWORD_VOID, [], []⟩]⟩ initSemState
      visitProgram ⟨[⟨"main", .KEYWORD_VOID, [], []⟩]⟩ s1) =
      Except.error "Function 'main' redefined" := rfl

/-- C5, amended: re-analyzing the same AST with a fresh analyzer
succeeds identically (analysis is read-only on the AST: in this
embedding it is a pure function of the AST and the analyzer state),
but invoking visit(program) a second time on the same analyzer object
fails for every program with at least one function: registration
finds the name already in the function table. -/
theorem c5_second_visit_on_same_analyzer_fails (p : Program) (s1 : SemState)
    (h : visitProgram p initSemState = .ok s1) (hne : p.functions ≠ []) :
    ∃ msg, visitProgram p s1 = Except.error msg := by
  rcases hl : p.functions with _ | ⟨f0, rest⟩
  · exact absurd hl hne
  · simp only [visitProgram, bind, Except.bind] at h
    cases hr : registerFns initSemState p.functions with
    | error e => rw [hr] at h; cases h
    | ok stR =>
      rw [hr] at h
      have hfuns : s1.functions = stR.functions := analyzeFns_functions h
      have hsome : (mfind s1.functions f0.name).isSome := by
        rw [hfuns]
        exact registerFns_mem hr f0 (by rw [hl]; exact List.mem_cons_self _ _)
      refine ⟨"Function '" ++ f0.name ++ "' redefined", ?_⟩
      simp only [visitProgram, hl, registerFns, hsome, if_true, bind, Except.bind]

/-- C5, witness: the amended theorem applied to the one-function
program void main. -/
theorem c5_witness :
    ∃ msg,
      visitProgram ⟨[⟨"main", .KEYWORD_VOID, [], []⟩]⟩
        ⟨[[]], [("main", .KEYWORD_VOID)], .KEYWORD_VOID⟩ =
        Except.error msg :=
  c5_second_visit_on_same_analyzer_fails
    ⟨[⟨"main", .KEYWORD_VOID, [], []⟩]⟩
    ⟨[[]], [("main", .KEYWORD_VOID)], .KEYWORD_VOID⟩
    (by rfl) (by simp)

/-! ## IR model (include/minic/IR.hpp) and IR generator (IRGenerator.cpp)

The IROpcode set is the one consumed by IRGenerator.cpp and
CodeGenerator.cpp: it extends the older header variant with NEG, NOT
and JUMPIFNOT; LOAD, STORE and LABEL exist but are never emitted. -/

/-- IR opcodes. -/
inductive IROpcode where
  | ADD | SUB | MUL | DIV | NEG | NOT
  | EQ | NEQ | LT | GT | LE | GE
  | ASSIGN | LOAD | STORE
  | JUMP | JUMPIF | JUMPIFNOT | RETURN | LABEL
  deriving DecidableEq, Repr

/-- IR instruction: opcode plus result and two operand strings. -/
structure IRInstruction where
  opcode : IROpcode
  result : String
  operand1 : String
  operand2 : String
  deriving DecidableEq, Repr

/-- Basic block: label and instruction list. -/
structure BasicBlock where
  label : String
  instructions : List IRInstruction
  deriving DecidableEq, Repr

/-- IR function: name, return type, parameters, ordered blocks. -/
structure IRFunction where
  name : String
  return_type : TokenType
  parameters : List Parameter
  blocks : List BasicBlock
  deriving DecidableEq, Repr

/-- IR program. -/
structure IRProgram where
  functions : List IRFunction
  deriving DecidableEq, Repr

/-- Per-function state of the IR generator: temporary counter, label
counter, variable map, and the blocks built so far.  The C++ cursor
current_block_ always points at the most recently pushed block, so
the embedding appends emitted instructions to the last block. -/
structure GenState where
  tmp : Nat
  lbl : Nat
  vars : List (String × String)
  blocks : List BasicBlock
  deriving DecidableEq, Repr

/-- Lookup in the IR generator variable map. -/
def vfind (m : List (String × String)) (k : String) : Option String :=
  match m with
  | [] => none
  | (a, v) :: rest => if a = k then some v else vfind rest k

/-- IRGenerator.emit: append an instruction to the current block,
i.e. the last block of the function under construction. -/
def emitB (bs : List BasicBlock) (i : IRInstruction) : List BasicBlock :=
  match bs with
  | [] => []
  | [b] => [⟨b.label, b.instructions ++ [i]⟩]
  | b :: rest => b :: emitB rest i

/-- Emit an instruction in a generator state. -/
def emitS (s : GenState) (op : IROpcode) (res op1 op2 : String) : GenState :=
  { s with blocks := emitB s.blocks ⟨op, res, op1, op2⟩ }

/-- Push a fresh empty block and make it current. -/
def pushBlock (s : GenState) (l : String) : GenState :=
  { s with blocks := s.blocks ++ [⟨l, []⟩] }

/-- IRGenerator.new_temp. -/
def newTemp (n : Nat) : String := "t" ++ natRepr n

/-- Token-operator to IR-opcode table used by generate_expr for
binary expressions; any other token is an IrGen failure. -/
def binOpc : TokenType → Except String IROpcode
  | .OP_PLUS => .ok .ADD
  | .OP_MINUS => .ok .SUB
  | .OP_MULTIPLY => .ok .MUL
  | .OP_DIVIDE => .ok .DIV
  | .OP_EQUAL => .ok .EQ
  | .OP_NOT_EQUAL => .ok .NEQ
  | .OP_LESS => .ok .LT
  | .OP_GREATER => .ok .GT
  | .OP_LESS_EQ => .ok .LE
  | .OP_GREATER_EQ => .ok .GE
  | _ => .error "Unsupported binary operator in IR"

/-- IRGenerator.generate_expr: lower an expression, returning the
operand name holding its value. -/
def genExpr : Expr → GenState → Except String (String × GenState)
  | .intLit v, s =>
    let t := newTemp s.tmp
    .ok (t, emitS { s with tmp := s.tmp + 1 } .ASSIGN t (intRepr v) "")
  | .strLit str, s =>
    let t := newTemp s.tmp
    .ok (t, emitS { s with tmp := s.tmp + 1 } .ASSIGN t str "")
  | .ident n, s =>
    match vfind s.vars n with
    | none => .error "Undeclared variable in IR"
    | some v => .ok (v, s)
  | .unary op x, s => do
    let (xo, s1) ← genExpr x s
    let t := newTemp s1.tmp
    let opc := if op = .OP_MINUS then IROpcode.NEG else IROpcode.NOT
    .ok (t, emitS { s1 with tmp := s1.tmp + 1 } opc t xo "")
  | .binary l op r, s => do
    let (lo, s1) ← genExpr l s
    let (ro, s2) ← genExpr r s1
    let t := newTemp s2.tmp
    let o ← binOpc op
    .ok (t, emitS { s2 with tmp := s2.tmp + 1 } o t lo ro)

mutual

/-- IRGenerator.visit(const Stmt&): lower one statement. -/
def genStmt : Stmt → GenState → Except String GenState
  | .varDecl _ n initializer, s =>
    let s0 := { s with vars := (n, n) :: s.vars }
    match initializer with
    | none => .ok s0
    | some e => do
      let (io, s1) ← genExpr e s0
      .ok (emitS s1 .ASSIGN n io "")
  | .assign n v, s => do
    let (vo, s1) ← genExpr v s
    .ok (emitS s1 .ASSIGN n vo "")
  | .ret value, s =>
    match value with
    | some e => do
      let (ro, s1) ← genExpr e s
      .ok (emitS s1 .RETURN "" ro "")
    | none => .ok (emitS s .RETURN "" "" "")
  | .ifS c thenB elseB, s => do
    let (co, s1) ← genExpr c s
    let thenL := mkLabel "if_then" s1.lbl
    let elseL := mkLabel "if_else" (s1.lbl + 1)
    let endL := mkLabel "if_end" (s1.lbl + 2)
    let s2 := emitS { s1 with lbl := s1.lbl + 3 } .JUMPIFNOT "" co elseL
    let s3 := pushBlock s2 thenL
    let s4 ← genStmts thenB s3
    let s5 := emitS s4 .JUMP "" endL ""
    let s6 := pushBlock s5 elseL
    let s7 ← genStmts elseB s6
    let s8 := emitS s7 .JUMP "" endL ""
    .ok (pushBlock s8 endL)
  | .whileS c body, s => do
    let condL := mkLabel "while_cond" s.lbl
    let bodyL := mkLabel "while_body" (s.lbl + 1)
    let endL := mkLabel "while_end" (s.lbl + 2)
    let s1 := emitS { s with lbl := s.lbl + 3 } .JUMP condL "" ""
    let s2 := pushBlock s1 condL
    let (co, s3) ← genExpr c s2
    let s4 := emitS s3 .JUMPIFNOT "" co endL
    let s5 := pushBlock s4 bodyL
    let s6 ← genStmts body s5
    let s7 := emitS s6 .JUMP condL "" ""
    .ok (pushBlock s7 endL)

/-- Sequential lowering of a statement list. -/
def genStmts : List Stmt → GenState → Except String GenState
  | [], s => .ok s
  | st :: rest, s => do
    let s1 ← genStmt st s
    genStmts rest s1

end

/-- IRGenerator.visit(const Function&): reset the counters and the
variable map, create the entry block (which consumes label index 0),
map the parameters to themselves, then lower the body. -/
def genFunction (f : Function) : Except String IRFunction := do
  let vars0 := f.parameters.foldl (fun m p => (p.name, p.name) :: m) []
  let s0 : GenState := ⟨0, 1, vars0, [⟨mkLabel "entry" 0, []⟩]⟩
  let s1 ← genStmts f.body s0
  .ok ⟨f.name, f.return_type, f.parameters, s1.blocks⟩

/-- IRGenerator.generate: lower every function of the program. -/
def genProgram (p : Program) : Except String IRProgram := do
  let fs ← genFns p.functions
  .ok ⟨fs⟩
where
  genFns : List Function → Except String (List IRFunction)
    | [] => .ok []
    | f :: rest => do
      let irf ← genFunction f
      let irfs ← genFns rest
      .ok (irf :: irfs)

theorem emitB_cons (a : BasicBlock) (l : List BasicBlock) (hl : l ≠ [])
    (i : IRInstruction) : emitB (a :: l) i = a :: emitB l i := by
  cases l with
  | nil => exact absurd rfl hl
  | cons c cs => rfl

theorem emitB_append_last (xs : List BasicBlock) (b : BasicBlock)
    (i : IRInstruction) :
    emitB (xs ++ [b]) i = xs ++ [⟨b.label, b.instructions ++ [i]⟩] := by
  induction xs with
  | nil => rfl
  | cons a rest ih =>
    rw [List.cons_append, emitB_cons a (rest ++ [b]) (by simp) i, ih,
      List.cons_append]

/-- C2, counterexample: for the concrete function main whose body is
int i = 0 followed by the while loop, the entry block label consumes
label index 0, so the while labels are while_cond_1, while_body_2 and
while_end_3, and both while-loop JUMP instructions carry while_cond_1
(in the result field, with empty operand1); no field of any generated
instruction equals while_cond_0, so the claimed target while_cond_0
is wrong at this input. -/
theorem c2_counterexample :
    genFunction ⟨"main", .KEYWORD_INT, [],
      [Stmt.varDecl .KEYWORD_INT "i" (some (Expr.intLit 0)),
       Stmt.whileS (Expr.binary (Expr.ident "i") .OP_LESS (Expr.intLit 10))
         [Stmt.assign "i" (Expr.binary (Expr.ident "i") .OP_PLUS (Expr.intLit 1))]]⟩ =
      .ok ⟨"main", .KEYWORD_INT, [],
        [⟨"entry_0",
          [⟨.ASSIGN, "t0", "0", ""⟩, ⟨.ASSIGN, "i", "t0", ""⟩,
           ⟨.JUMP, "while_cond_1", "", ""⟩]⟩,
         ⟨"while_cond_1",
          [⟨.ASSIGN, "t1", "10", ""⟩, ⟨.LT, "t2", "i", "t1"⟩,
           ⟨.JUMPIFNOT, "", "t2", "while_end_3"⟩]⟩,
         ⟨"while_body_2",
          [⟨.ASSIGN, "t3", "1", ""⟩, ⟨.ADD, "t4", "i", "t3"⟩,
           ⟨.ASSIGN, "i", "t4", ""⟩, ⟨.JUMP, "while_cond_1", "", ""⟩]⟩,
         ⟨"while_end_3", []⟩]⟩ ∧
    (∀ b : BasicBlock,
      b ∈ [BasicBlock.mk "entry_0"
          [⟨.ASSIGN, "t0", "0", ""⟩, ⟨.ASSIGN, "i", "t0", ""⟩,
           ⟨.JUMP, "while_cond_1", "", ""⟩],
        BasicBlock.mk "while_cond_1"
          [⟨.ASSIGN, "t1", "10", ""⟩, ⟨.LT, "t2", "i", "t1"⟩,
           ⟨.JUMPIFNOT, "", "t2", "while_end_3"⟩],
        BasicBlock.mk "while_body_2"
          [⟨.ASSIGN, "t3", "1", ""⟩, ⟨.ADD, "t4", "i", "t3"⟩,
           ⟨.ASSIGN, "i", "t4", ""⟩, ⟨.JUMP, "while_cond_1", "", ""⟩],
        BasicBlock.mk "while_end_3" []] →
      ∀ i ∈ b.instructions,
        i.result ≠ "while_cond_0" ∧ i.operand1 ≠ "while_cond_0" ∧
          i.operand2 ≠ "while_cond_0") := by
  exact ⟨rfl, by decide⟩

/-- C2, amended: for every function whose body is exactly int i = 0
followed by while (i < 10) with body i = i + 1, the generated IR has
blocks entry_0, while_cond_1, while_body_2 and while_end_3 (the
entry block consumes label index 0, so the while labels start at 1,
not 0), the entry block ends with a JUMP carrying while_cond_1 in
its result field with empty operand1, and the body block ends with
the same JUMP; the code generator later infers the actual target
from the label stored in the result field. -/
theorem c2_while_lowering (name : String) (ret : TokenType)
    (params : List Parameter) :
    genFunction ⟨name, ret, params,
      [Stmt.varDecl .KEYWORD_INT "i" (some (Expr.intLit 0)),
       Stmt.whileS (Expr.binary (Expr.ident "i") .OP_LESS (Expr.intLit 10))
         [Stmt.assign "i" (Expr.binary (Expr.ident "i") .OP_PLUS (Expr.intLit 1))]]⟩ =
      .ok ⟨name, ret, params,
        [⟨"entry_0",
          [⟨.ASSIGN, "t0", "0", ""⟩, ⟨.ASSIGN, "i", "t0", ""⟩,
           ⟨.JUMP, "while_cond_1", "", ""⟩]⟩,
         ⟨"while_cond_1",
          [⟨.ASSIGN, "t1", "10", ""⟩, ⟨.LT, "t2", "i", "t1"⟩,
           ⟨.JUMPIFNOT, "", "t2", "while_end_3"⟩]⟩,
         ⟨"while_body_2",
          [⟨.ASSIGN, "t3", "1", ""⟩, ⟨.ADD, "t4", "i", "t3"⟩,
           ⟨.ASSIGN, "i", "t4", ""⟩, ⟨.JUMP, "while_cond_1", "", ""⟩]⟩,
         ⟨"while_end_3", []⟩]⟩ := by
  simp [genFunction, genStmts, genStmt, genExpr, binOpc, vfind, emitS, emitB,
    pushBlock, newTemp, mkLabel, natRepr, natRev, natRevAux, digitChar,
    intRepr, bind, Except.bind]

/-! ## Structural invariants of generated IR (labels and jump targets) -/

/-- Labels of a block list, in order. -/
def labelsOf (bs : List BasicBlock) : List String := bs.map (·.label)

/-- Intended target of a control-flow instruction: operand1 of a
JUMP when non-empty, otherwise its result field (the while-lowering
stores the label there); operand2 of JUMPIF and JUMPIFNOT; nothing
for the remaining opcodes. -/
def instrTargets (i : IRInstruction) : List String :=
  match i.opcode with
  | .JUMP => if i.operand1 = "" then [i.result] else [i.operand1]
  | .JUMPIF => [i.operand2]
  | .JUMPIFNOT => [i.operand2]
  | _ => []

/-- All intended jump targets appearing in a block list. -/
def targetsOf (bs : List BasicBlock) : List String :=
  (bs.map (fun b => (b.instructions.map instrTargets).join)).join

/-- Well-formed label list with respect to a counter bound: every
label was minted by new_label with an index below the bound, and the
labels are distinct. -/
def LWF (c : Nat) (ls : List String) : Prop :=
  (∀ l ∈ ls, ∃ p k, k < c ∧ l = mkLabel p k) ∧ ls.Nodup

/-- Every label of the blocks built so far was minted by new_label
with an index below the label counter, and the labels are distinct. -/
def LabelsWF (s : GenState) : Prop := LWF s.lbl (labelsOf s.blocks)

/-- Relation between a generator state and a later one: the label
counter grows, labels persist, every new label was minted in the
intervening counter range, well-formed labels stay well-formed, and
every target present afterwards was either present before or refers
to a label present afterwards. -/
def GPost (s s1 : GenState) : Prop :=
  s.lbl ≤ s1.lbl ∧
  (∀ l ∈ labelsOf s.blocks, l ∈ labelsOf s1.blocks) ∧
  (∀ l ∈ labelsOf s1.blocks, l ∈ labelsOf s.blocks ∨
    ∃ p k, s.lbl ≤ k ∧ k < s1.lbl ∧ l = mkLabel p k) ∧
  (LabelsWF s → LabelsWF s1) ∧
  (∀ t ∈ targetsOf s1.blocks, t ∈ targetsOf s.blocks ∨ t ∈ labelsOf s1.blocks)

theorem labelsOf_emitB (bs : List BasicBlock) (i : IRInstruction) :
    labelsOf (emitB bs i) = labelsOf bs := by
  induction bs with
  | nil => rfl
  | cons a l ih =>
    cases l with
    | nil => rfl
    | cons c cs =>
      simp only [emitB, labelsOf, List.map_cons] at ih ⊢
      rw [ih]

theorem targetsOf_cons (b : BasicBlock) (bs : List BasicBlock) :
    targetsOf (b :: bs) =
      (b.instructions.map instrTargets).join ++ targetsOf bs := by
  simp [targetsOf]

theorem targetsOf_emitB_sub (bs : List BasicBlock) (i : IRInstruction) :
    ∀ t ∈ targetsOf (emitB bs i), t ∈ targetsOf bs ∨ t ∈ instrTargets i := by
  induction bs with
  | nil => intro t ht; simp [emitB, targetsOf] at ht
  | cons a l ih =>
    cases l with
    | nil =>
      intro t ht
      have he : targetsOf (emitB [a] i) = targetsOf [a] ++ instrTargets i := by
        simp [emitB, targetsOf]
      rw [he] at ht
      exact List.mem_append.mp ht
    | cons c cs =>
      intro t ht
      rw [emitB_cons a (c :: cs) (by simp) i, targetsOf_cons] at ht
      rcases List.mem_append.mp ht with h1 | h1
      · rw [targetsOf_cons]
        exact Or.inl (List.mem_append.mpr (Or.inl h1))
      · rcases ih t h1 with h2 | h2
        · rw [targetsOf_cons]
          exact Or.inl (List.mem_append.mpr (Or.inr h2))
        · exact Or.inr h2

theorem labelsOf_emitS (s : GenState) (op : IROpcode) (r a b : String) :
    labelsOf (emitS s op r a b).blocks = labelsOf s.blocks :=
  labelsOf_emitB _ _

theorem targetsOf_emitS_sub (s : GenState) (op : IROpcode) (r a b : String) :
    ∀ t ∈ targetsOf (emitS s op r a b).blocks,
      t ∈ targetsOf s.blocks ∨ t ∈ instrTargets ⟨op, r, a, b⟩ :=
  targetsOf_emitB_sub _ _

theorem labelsOf_append (bs cs : List BasicBlock) :
    labelsOf (bs ++ cs) = labelsOf bs ++ labelsOf cs := by
  simp [labelsOf]

theorem targetsOf_append (bs cs : List BasicBlock) :
    targetsOf (bs ++ cs) = targetsOf bs ++ targetsOf cs := by
  simp [targetsOf]

theorem labelsOf_pushBlock (s : GenState) (l : String) :
    labelsOf (pushBlock s l).blocks = labelsOf s.blocks ++ [l] := by
  simp [pushBlock, labelsOf]

theorem targetsOf_pushBlock (s : GenState) (l : String) :
    targetsOf (pushBlock s l).blocks = targetsOf s.blocks := by
  simp [pushBlock, targetsOf]

theorem GPost_rfl (s : GenState) : GPost s s := by
  refine ⟨Nat.le_refl _, fun l hl => hl, fun l hl => Or.inl hl, id,
    fun t ht => Or.inl ht⟩

theorem GPost_trans {s1 s2 s3 : GenState} (h12 : GPost s1 s2)
    (h23 : GPost s2 s3) : GPost s1 s3 := by
  obtain ⟨hc12, hm12, hr12, hw12, ht12⟩ := h12
  obtain ⟨hc23, hm23, hr23, hw23, ht23⟩ := h23
  refine ⟨Nat.le_trans hc12 hc23, fun l hl => hm23 l (hm12 l hl), ?_,
    fun hw => hw23 (hw12 hw), ?_⟩
  · intro l hl
    rcases hr23 l hl with h | ⟨p, k, hk1, hk2, he⟩
    · rcases hr12 l h with h2 | ⟨p, k, hk1, hk2, he⟩
      · exact Or.inl h2
      · exact Or.inr ⟨p, k, hk1, Nat.lt_of_lt_of_le hk2 hc23, he⟩
    · exact Or.inr ⟨p, k, Nat.le_trans hc12 hk1, hk2, he⟩
  · intro t ht
    rcases ht23 t ht with h | h
    · rcases ht12 t h with h2 | h2
      · exact Or.inl h2
      · exact Or.inr (hm23 t h2)
    · exact Or.inr h

theorem binOpc_targets {op : TokenType} {o : IROpcode}
    (h : binOpc op = .ok o) (r a b : String) :
    instrTargets ⟨o, r, a, b⟩ = [] := by
  cases op <;> simp [binOpc] at h <;> subst h <;> rfl

/-- generate_expr emits only non-branching instructions: the label
counter and the block labels are unchanged and no targets appear. -/
theorem genExpr_post (e : Expr) : ∀ s r s1, genExpr e s = .ok (r, s1) →
    s1.lbl = s.lbl ∧ labelsOf s1.blocks = labelsOf s.blocks ∧
    (∀ t ∈ targetsOf s1.blocks, t ∈ targetsOf s.blocks) := by
  induction e with
  | intLit v =>
    intro s r s1 h
    simp only [genExpr] at h
    cases h
    refine ⟨rfl, labelsOf_emitB _ _, fun t ht => ?_⟩
    rcases targetsOf_emitB_sub _ _ t ht with h | h
    · exact h
    · simp [instrTargets] at h
  | strLit v =>
    intro s r s1 h
    simp only [genExpr] at h
    cases h
    refine ⟨rfl, labelsOf_emitB _ _, fun t ht => ?_⟩
    rcases targetsOf_emitB_sub _ _ t ht with h | h
    · exact h
    · simp [instrTargets] at h
  | ident n =>
    intro s r s1 h
    simp only [genExpr] at h
    cases hv : vfind s.vars n with
    | none => simp [hv] at h
    | some v =>
      simp only [hv] at h
      cases h
      exact ⟨rfl, rfl, fun t ht => ht⟩
  | unary op x ihx =>
    intro s r s1 h
    simp only [genExpr, bind, Except.bind] at h
    cases hx : genExpr x s with
    | error e => simp [hx] at h
    | ok p =>
      obtain ⟨xo, sx⟩ := p
      simp only [hx] at h
      cases h
      obtain ⟨hl, hlab, htar⟩ := ihx s xo sx hx
      refine ⟨hl, by rw [labelsOf_emitS]; exact hlab, fun t ht => ?_⟩
      rcases targetsOf_emitS_sub _ _ _ _ _ t ht with h | h
      · exact htar t h
      · by_cases hop : op = .OP_MINUS <;> simp [hop, instrTargets] at h
  | binary l op r ihl ihr =>
    intro s rr s1 h
    simp only [genExpr, bind, Except.bind] at h
    cases hl : genExpr l s with
    | error e => simp [hl] at h
    | ok p =>
      obtain ⟨lo, sl⟩ := p
      simp only [hl] at h
      cases hr : genExpr r sl with
      | error e => simp [hr] at h
      | ok q =>
        obtain ⟨ro, sr⟩ := q
        simp only [hr] at h
        cases ho : binOpc op with
        | error e => simp [ho] at h
        | ok o =>
          simp only [ho] at h
          cases h
          obtain ⟨hl1, hlab1, htar1⟩ := ihl s lo sl hl
          obtain ⟨hl2, hlab2, htar2⟩ := ihr sl ro sr hr
          refine ⟨hl2.trans hl1, by rw [labelsOf_emitS, hlab2, hlab1],
            fun t ht => ?_⟩
          rcases targetsOf_emitS_sub _ _ _ _ _ t ht with h | h
          · exact htar1 t (htar2 t h)
          · rw [binOpc_targets ho] at h
            simp at h

theorem LWF_mono {c c' : Nat} {ls : List String} (h : LWF c ls)
    (hc : c ≤ c') : LWF c' ls :=
  ⟨fun l hl => by
    obtain ⟨p, k, hk, he⟩ := h.1 l hl
    exact ⟨p, k, Nat.lt_of_lt_of_le hk hc, he⟩, h.2⟩

theorem LWF_push {c c' : Nat} {ls : List String} {p : String} {j : Nat}
    (h : LWF c ls) (hjc : j < c') (hcc : c ≤ c')
    (hfresh : ∀ l ∈ ls, l ≠ mkLabel p j) :
    LWF c' (ls ++ [mkLabel p j]) := by
  refine ⟨fun l hl => ?_, ?_⟩
  · rcases List.mem_append.mp hl with hl | hl
    · obtain ⟨q, k, hk, he⟩ := h.1 l hl
      exact ⟨q, k, Nat.lt_of_lt_of_le hk hcc, he⟩
    · simp at hl
      exact ⟨p, j, hjc, hl⟩
  · rw [List.nodup_append]
    refine ⟨h.2, List.nodup_singleton _, ?_⟩
    intro a ha hb
    simp at hb
    exact hfresh a ha hb

theorem fresh_of_ne {ls : List String} {j : Nat} {q : String}
    (h : ∀ l ∈ ls, ∃ p k, k ≠ j ∧ l = mkLabel p k) :
    ∀ l ∈ ls, l ≠ mkLabel q j := by
  intro l hl
  obtain ⟨p, k, hk, he⟩ := h l hl
  exact he ▸ mkLabel_ne_of_ne hk

/-- GPost holds for an emitted instruction that carries no target. -/
theorem GPost_emitS (s : GenState) (op : IROpcode) (r a b : String)
    (h : instrTargets ⟨op, r, a, b⟩ = []) : GPost s (emitS s op r a b) := by
  refine ⟨Nat.le_refl _, ?_, ?_, ?_, ?_⟩
  · intro l hl; rw [labelsOf_emitS]; exact hl
  · intro l hl; rw [labelsOf_emitS] at hl; exact Or.inl hl
  · intro hw
    unfold LabelsWF at hw ⊢
    rw [labelsOf_emitS]
    exact hw
  · intro t ht
    rcases targetsOf_emitS_sub _ _ _ _ _ t ht with h2 | h2
    · exact Or.inl h2
    · rw [h] at h2; simp at h2

/-- GPost holds across expression lowering. -/
theorem GPost_genExpr {e : Expr} {s : GenState} {r : String} {s1 : GenState}
    (h : genExpr e s = .ok (r, s1)) : GPost s s1 := by
  obtain ⟨hl, hlab, htar⟩ := genExpr_post e s r s1 h
  refine ⟨Nat.le_of_eq hl.symm, ?_, ?_, ?_, ?_⟩
  · intro l hl2; rw [hlab]; exact hl2
  · intro l hl2; rw [hlab] at hl2; exact Or.inl hl2
  · intro hw
    unfold LabelsWF at hw ⊢
    rw [hlab, hl]
    exact hw
  · intro t ht; exact Or.inl (htar t ht)

theorem mkLabel_ne_empty (p : String) (n : Nat) : mkLabel p n ≠ "" := by
  intro h
  have hd : (mkLabel p n).data = [] := by rw [h]
  have hd2 : (mkLabel p n).data = p.data ++ ('_' :: (natRepr n).data) := by
    simp [mkLabel, String.data_append]
  rw [hd2] at hd
  simp at hd

theorem pushBlock_lbl (s : GenState) (l : String) :
    (pushBlock s l).lbl = s.lbl := rfl

theorem emitS_lbl (s : GenState) (op : IROpcode) (r a b : String) :
    (emitS s op r a b).lbl = s.lbl := rfl

/-- GPost for the If statement, assuming GPost for the lowering of
the two branch statement lists. -/
theorem GPost_if {c : Expr} {thenB elseB : List Stmt} {s s1 : GenState}
    (h : genStmt (.ifS c thenB elseB) s = .ok s1)
    (IH : ∀ (L : List Stmt) (u u1 : GenState), (L = thenB ∨ L = elseB) →
      genStmts L u = .ok u1 → GPost u u1) :
    GPost s s1 := by
  simp only [genStmt, bind, Except.bind] at h
  cases hc : genExpr c s with
  | error e => simp [hc] at h
  | ok p =>
    obtain ⟨co, sc⟩ := p
    simp only [hc] at h
    obtain ⟨hcl, hclab, hctar⟩ := genExpr_post c s co sc hc
    set k := sc.lbl with hk
    set thenL := mkLabel "if_then" k with hthenL
    set elseL := mkLabel "if_else" (k + 1) with helseL
    set endL := mkLabel "if_end" (k + 2) with hendL
    set s2 := emitS { sc with lbl := k + 3 } .JUMPIFNOT "" co elseL with hs2
    set s3 := pushBlock s2 thenL with hs3
    cases hg1 : genStmts thenB s3 with
    | error e => simp [hg1] at h
    | ok s4 =>
      simp only [hg1] at h
      set s5 := emitS s4 .JUMP "" endL "" with hs5
      set s6 := pushBlock s5 elseL with hs6
      cases hg2 : genStmts elseB s6 with
      | error e => simp [hg2] at h
      | ok s7 =>
        simp only [hg2] at h
        set s8 := emitS s7 .JUMP "" endL "" with hs8
        cases h
        have P34 : GPost s3 s4 := IH thenB s3 s4 (Or.inl rfl) hg1
        have P67 : GPost s6 s7 := IH elseB s6 s7 (Or.inr rfl) hg2
        -- label-list equations
        have L3 : labelsOf s3.blocks = labelsOf s.blocks ++ [thenL] := by
          rw [hs3, labelsOf_pushBlock, hs2, labelsOf_emitS]
          exact congrArg (· ++ [thenL]) hclab
        have L6 : labelsOf s6.blocks = labelsOf s4.blocks ++ [elseL] := by
          rw [hs6, labelsOf_pushBlock, hs5, labelsOf_emitS]
        have L9 : labelsOf (pushBlock s8 endL).blocks =
            labelsOf s7.blocks ++ [endL] := by
          rw [labelsOf_pushBlock, hs8, labelsOf_emitS]
        -- counter equations
        have c3 : s3.lbl = k + 3 := rfl
        have c34 : k + 3 ≤ s4.lbl := c3 ▸ P34.1
        have c6 : s6.lbl = s4.lbl := rfl
        have c67 : s4.lbl ≤ s7.lbl := c6 ▸ P67.1
        have c9 : (pushBlock s8 endL).lbl = s7.lbl := rfl
        have hsk : s.lbl = k := hcl.symm
        -- membership decompositions
        have hd4 : ∀ l ∈ labelsOf s4.blocks,
            l ∈ labelsOf s.blocks ∨ l = thenL ∨
              ∃ p j, k + 3 ≤ j ∧ j < s4.lbl ∧ l = mkLabel p j := by
          intro l hl
          rcases P34.2.2.1 l hl with hl2 | ⟨p, j, hj1, hj2, he⟩
          · rw [L3] at hl2
            rcases List.mem_append.mp hl2 with hl3 | hl3
            · exact Or.inl hl3
            · simp at hl3
              exact Or.inr (Or.inl hl3)
          · rw [c3] at hj1
            exact Or.inr (Or.inr ⟨p, j, hj1, hj2, he⟩)
        have hd7 : ∀ l ∈ labelsOf s7.blocks,
            l ∈ labelsOf s4.blocks ∨ l = elseL ∨
              ∃ p j, k + 3 ≤ j ∧ j < s7.lbl ∧ l = mkLabel p j := by
          intro l hl
          rcases P67.2.2.1 l hl with hl2 | ⟨p, j, hj1, hj2, he⟩
          · rw [L6] at hl2
            rcases List.mem_append.mp hl2 with hl3 | hl3
            · exact Or.inl hl3
            · simp at hl3
              exact Or.inr (Or.inl hl3)
          · rw [c6] at hj1
            exact Or.inr (Or.inr ⟨p, j, Nat.le_trans c34 hj1, hj2, he⟩)
        -- label persistence along the chain
        have m34 : ∀ l ∈ labelsOf s4.blocks, l ∈ labelsOf s7.blocks := by
          intro l hl
          exact P67.2.1 l (by rw [L6]; exact List.mem_append.mpr (Or.inl hl))
        have m3 : ∀ l ∈ labelsOf s3.blocks, l ∈ labelsOf s4.blocks := P34.2.1
        refine ⟨?_, ?_, ?_, ?_, ?_⟩
        · rw [c9, hsk]
          omega
        · intro l hl
          rw [L9]
          refine List.mem_append.mpr (Or.inl ?_)
          refine m34 l (m3 l ?_)
          rw [L3]
          exact List.mem_append.mpr (Or.inl hl)
        · intro l hl
          rw [L9] at hl
          rw [hsk, c9]
          rcases List.mem_append.mp hl with hl2 | hl2
          · rcases hd7 l hl2 with hl3 | hl3 | ⟨p, j, hj1, hj2, he⟩
            · rcases hd4 l hl3 with hl4 | hl4 | ⟨p, j, hj1, hj2, he⟩
              · exact Or.inl hl4
              · exact Or.inr ⟨"if_then", k, by omega, by omega, hl4⟩
              · exact Or.inr ⟨p, j, by omega, by omega, he⟩
            · exact Or.inr ⟨"if_else", k + 1, by omega, by omega, hl3⟩
            · exact Or.inr ⟨p, j, by omega, by omega, he⟩
          · simp at hl2
            exact Or.inr ⟨"if_end", k + 2, by omega, by omega, hl2⟩
        · intro hws
          unfold LabelsWF at hws
          rw [hsk] at hws
          have hds : ∀ l ∈ labelsOf s.blocks, ∃ p j, j < k ∧ l = mkLabel p j :=
            hws.1
          have W3 : LWF s3.lbl (labelsOf s3.blocks) := by
            rw [c3, L3]
            refine LWF_push hws (by omega) (by omega) ?_
            exact fresh_of_ne (fun l hl => by
              obtain ⟨p, j, hj, he⟩ := hds l hl
              exact ⟨p, j, by omega, he⟩)
          have W4 : LWF s4.lbl (labelsOf s4.blocks) := P34.2.2.2.1 W3
          have W6 : LWF s6.lbl (labelsOf s6.blocks) := by
            rw [c6, L6]
            refine LWF_push W4 (by omega) (Nat.le_refl _) ?_
            refine fresh_of_ne (fun l hl => ?_)
            rcases hd4 l hl with hl2 | hl2 | ⟨p, j, hj, hj2, he⟩
            · obtain ⟨p, j, hj, he⟩ := hds l hl2
              exact ⟨p, j, by omega, he⟩
            · exact ⟨"if_then", k, by omega, hl2⟩
            · exact ⟨p, j, by omega, he⟩
          have W7 : LWF s7.lbl (labelsOf s7.blocks) := P67.2.2.2.1 W6
          unfold LabelsWF
          rw [c9, L9]
          refine LWF_push W7 (by omega) (Nat.le_refl _) ?_
          refine fresh_of_ne (fun l hl => ?_)
          rcases hd7 l hl with hl2 | hl2 | ⟨p, j, hj, hj2, he⟩
          · rcases hd4 l hl2 with hl3 | hl3 | ⟨p, j, hj, hj2, he⟩
            · obtain ⟨p, j, hj, he⟩ := hds l hl3
              exact ⟨p, j, by omega, he⟩
            · exact ⟨"if_then", k, by omega, hl3⟩
            · exact ⟨p, j, by omega, he⟩
          · exact ⟨"if_else", k + 1, by omega, hl2⟩
          · exact ⟨p, j, by omega, he⟩
        · intro t ht
          have helse_mem : elseL ∈ labelsOf (pushBlock s8 endL).blocks := by
            rw [L9]
            refine List.mem_append.mpr (Or.inl ?_)
            refine P67.2.1 elseL ?_
            rw [L6]
            exact List.mem_append.mpr (Or.inr (by simp))
          have hend_mem : endL ∈ labelsOf (pushBlock s8 endL).blocks := by
            rw [L9]
            exact List.mem_append.mpr (Or.inr (by simp))
          have h7sub : ∀ l ∈ labelsOf s7.blocks,
              l ∈ labelsOf (pushBlock s8 endL).blocks := by
            intro l hl
            rw [L9]
            exact List.mem_append.mpr (Or.inl hl)
          have h4sub : ∀ l ∈ labelsOf s4.blocks,
              l ∈ labelsOf (pushBlock s8 endL).blocks := by
            intro l hl
            exact h7sub l (m34 l hl)
          rw [targetsOf_pushBlock] at ht
          rcases targetsOf_emitS_sub _ _ _ _ _ t ht with ht2 | ht2
          · rcases P67.2.2.2.2 t ht2 with ht3 | ht3
            · rw [hs6, targetsOf_pushBlock] at ht3
              rcases targetsOf_emitS_sub _ _ _ _ _ t ht3 with ht4 | ht4
              · rcases P34.2.2.2.2 t ht4 with ht5 | ht5
                · rw [hs3, targetsOf_pushBlock] at ht5
                  rcases targetsOf_emitS_sub _ _ _ _ _ t ht5 with ht6 | ht6
                  · exact Or.inl (hctar t ht6)
                  · simp only [instrTargets] at ht6
                    simp at ht6
                    subst ht6
                    exact Or.inr helse_mem
                · exact Or.inr (h4sub t ht5)
              · simp only [instrTargets, if_neg (mkLabel_ne_empty "if_end" (k + 2))] at ht4
                simp at ht4
                subst ht4
                exact Or.inr hend_mem
            · exact Or.inr (h7sub t ht3)
          · simp only [instrTargets, if_neg (mkLabel_ne_empty "if_end" (k + 2))] at ht2
            simp at ht2
            subst ht2
            exact Or.inr hend_mem

/-- GPost for the While statement, assuming GPost for the lowering
of the body statement list. -/
theorem GPost_while {c : Expr} {body : List Stmt} {s s1 : GenState}
    (h : genStmt (.whileS c body) s = .ok s1)
    (IH : ∀ (u u1 : GenState), genStmts body u = .ok u1 → GPost u u1) :
    GPost s s1 := by
  simp only [genStmt, bind, Except.bind] at h
  set k := s.lbl with hk
  set condL := mkLabel "while_cond" k with hcondL
  set bodyL := mkLabel "while_body" (k + 1) with hbodyL
  set endL := mkLabel "while_end" (k + 2) with hendL
  set sA := emitS { s with lbl := k + 3 } .JUMP condL "" "" with hsA
  set sB := pushBlock sA condL with hsB
  cases hc : genExpr c sB with
  | error e => simp [hc] at h
  | ok p =>
    obtain ⟨co, sC⟩ := p
    simp only [hc] at h
    obtain ⟨hcl, hclab, hctar⟩ := genExpr_post c sB co sC hc
    set sD := emitS sC .JUMPIFNOT "" co endL with hsD
    set sE := pushBlock sD bodyL with hsE
    cases hg : genStmts body sE with
    | error e => simp [hg] at h
    | ok sF =>
      simp only [hg] at h
      set sG := emitS sF .JUMP condL "" "" with hsG
      cases h
      have PEF : GPost sE sF := IH sE sF hg
      -- label equations
      have LB : labelsOf sB.blocks = labelsOf s.blocks ++ [condL] := by
        rw [hsB, labelsOf_pushBlock, hsA, labelsOf_emitS]
      have LE : labelsOf sE.blocks = labelsOf s.blocks ++ [condL, bodyL] := by
        rw [hsE, labelsOf_pushBlock, hsD, labelsOf_emitS, hclab, LB,
          List.append_assoc]
        rfl
      have LR : labelsOf (pushBlock sG endL).blocks =
          labelsOf sF.blocks ++ [endL] := by
        rw [labelsOf_pushBlock, hsG, labelsOf_emitS]
      -- counter equations
      have cB : sB.lbl = k + 3 := rfl
      have cC : sC.lbl = k + 3 := by rw [hcl]; rfl
      have cE : sE.lbl = k + 3 := by rw [hsE, pushBlock_lbl, hsD, emitS_lbl, cC]
      have cEF : k + 3 ≤ sF.lbl := cE ▸ PEF.1
      have cR : (pushBlock sG endL).lbl = sF.lbl := rfl
      -- decomposition of the labels reached after the body
      have hdF : ∀ l ∈ labelsOf sF.blocks,
          l ∈ labelsOf s.blocks ∨ l = condL ∨ l = bodyL ∨
            ∃ p j, k + 3 ≤ j ∧ j < sF.lbl ∧ l = mkLabel p j := by
        intro l hl
        rcases PEF.2.2.1 l hl with hl2 | ⟨p, j, hj1, hj2, he⟩
        · rw [LE] at hl2
          rcases List.mem_append.mp hl2 with hl3 | hl3
          · exact Or.inl hl3
          · simp at hl3
            rcases hl3 with hl3 | hl3
            · exact Or.inr (Or.inl hl3)
            · exact Or.inr (Or.inr (Or.inl hl3))
        · rw [cE] at hj1
          exact Or.inr (Or.inr (Or.inr ⟨p, j, hj1, hj2, he⟩))
      have mE : ∀ l ∈ labelsOf sE.blocks, l ∈ labelsOf sF.blocks := PEF.2.1
      refine ⟨?_, ?_, ?_, ?_, ?_⟩
      · rw [cR]
        omega
      · intro l hl
        rw [LR]
        refine List.mem_append.mpr (Or.inl ?_)
        refine mE l ?_
        rw [LE]
        exact List.mem_append.mpr (Or.inl hl)
      · intro l hl
        rw [LR] at hl
        rw [cR]
        rcases List.mem_append.mp hl with hl2 | hl2
        · rcases hdF l hl2 with hl3 | hl3 | hl3 | ⟨p, j, hj1, hj2, he⟩
          · exact Or.inl hl3
          · exact Or.inr ⟨"while_cond", k, by omega, by omega, hl3⟩
          · exact Or.inr ⟨"while_body", k + 1, by omega, by omega, hl3⟩
          · exact Or.inr ⟨p, j, by omega, by omega, he⟩
        · simp at hl2
          exact Or.inr ⟨"while_end", k + 2, by omega, by omega, hl2⟩
      · intro hws
        unfold LabelsWF at hws
        have hds : ∀ l ∈ labelsOf s.blocks, ∃ p j, j < k ∧ l = mkLabel p j :=
          hws.1
        have WE : LWF sE.lbl (labelsOf sE.blocks) := by
          rw [cE, LE, show labelsOf s.blocks ++ [condL, bodyL] =
            (labelsOf s.blocks ++ [condL]) ++ [bodyL] from by
              rw [List.append_assoc]; rfl]
          refine LWF_push ?_ (by omega) (Nat.le_refl _) ?_
          · refine LWF_push hws (by omega) (by omega) ?_
            refine fresh_of_ne (fun l hl => ?_)
            obtain ⟨p, j, hj, he⟩ := hds l hl
            exact ⟨p, j, by omega, he⟩
          · refine fresh_of_ne (fun l hl => ?_)
            rcases List.mem_append.mp hl with hl2 | hl2
            · obtain ⟨p, j, hj, he⟩ := hds l hl2
              exact ⟨p, j, by omega, he⟩
            · simp at hl2
              exact ⟨"while_cond", k, by omega, hl2⟩
        have WF : LWF sF.lbl (labelsOf sF.blocks) := PEF.2.2.2.1 WE
        unfold LabelsWF
        rw [cR, LR]
        refine LWF_push WF (by omega) (Nat.le_refl _) ?_
        refine fresh_of_ne (fun l hl => ?_)
        rcases hdF l hl with hl2 | hl2 | hl2 | ⟨p, j, hj1, hj2, he⟩
        · obtain ⟨p, j, hj, he⟩ := hds l hl2
          exact ⟨p, j, by omega, he⟩
        · exact ⟨"while_cond", k, by omega, hl2⟩
        · exact ⟨"while_body", k + 1, by omega, hl2⟩
        · exact ⟨p, j, by omega, he⟩
      · intro t ht
        have hcond_mem : condL ∈ labelsOf (pushBlock sG endL).blocks := by
          rw [LR]
          refine List.mem_append.mpr (Or.inl ?_)
          refine mE condL ?_
          rw [LE]
          exact List.mem_append.mpr (Or.inr (by simp))
        have hend_mem : endL ∈ labelsOf (pushBlock sG endL).blocks := by
          rw [LR]
          exact List.mem_append.mpr (Or.inr (by simp))
        have hFsub : ∀ l ∈ labelsOf sF.blocks,
            l ∈ labelsOf (pushBlock sG endL).blocks := by
          intro l hl
          rw [LR]
          exact List.mem_append.mpr (Or.inl hl)
        rw [targetsOf_pushBlock] at ht
        rcases targetsOf_emitS_sub _ _ _ _ _ t ht with ht2 | ht2
        · rcases PEF.2.2.2.2 t ht2 with ht3 | ht3
          · rw [hsE, targetsOf_pushBlock] at ht3
            rcases targetsOf_emitS_sub _ _ _ _ _ t ht3 with ht4 | ht4
            · have ht5 := hctar t ht4
              rw [hsB, targetsOf_pushBlock] at ht5
              rcases targetsOf_emitS_sub _ _ _ _ _ t ht5 with ht6 | ht6
              · exact Or.inl ht6
              · simp only [instrTargets] at ht6
                simp at ht6
                subst ht6
                exact Or.inr hcond_mem
            · simp only [instrTargets] at ht4
              simp at ht4
              subst ht4
              exact Or.inr hend_mem
          · exact Or.inr (hFsub t ht3)
        · simp only [instrTargets] at ht2
          simp at ht2
          subst ht2
          exact Or.inr hcond_mem

/-- GPost for a pure variable-map update. -/
theorem GPost_vars (s : GenState) (v : List (String × String)) :
    GPost s { s with vars := v } :=
  ⟨Nat.le_refl _, fun _ hl => hl, fun _ hl => Or.inl hl, id, fun _ ht => Or.inl ht⟩

/-- Main induction: every successful statement (or statement-list)
lowering satisfies GPost, by strong induction on the node size. -/
theorem genPost_all : ∀ (N : Nat),
    (∀ (st : Stmt) (s s1 : GenState), sizeOf st ≤ N →
      genStmt st s = .ok s1 → GPost s s1) ∧
    (∀ (L : List Stmt) (s s1 : GenState), sizeOf L ≤ N →
      genStmts L s = .ok s1 → GPost s s1) := by
  intro N
  induction N using Nat.strong_induction_on with
  | _ N ih =>
    constructor
    · intro st s s1 hsz h
      cases st with
      | varDecl t n initializer =>
        simp only [genStmt] at h
        cases initializer with
        | none =>
          cases h
          exact GPost_vars s _
        | some e =>
          simp only [bind, Except.bind] at h
          cases hge : genExpr e { s with vars := (n, n) :: s.vars } with
          | error er => simp [hge] at h
          | ok p =>
            obtain ⟨io, si⟩ := p
            simp only [hge] at h
            cases h
            exact GPost_trans (GPost_vars s _)
              (GPost_trans (GPost_genExpr hge) (GPost_emitS si .ASSIGN n io "" rfl))
      | assign n v =>
        simp only [genStmt, bind, Except.bind] at h
        cases hge : genExpr v s with
        | error er => simp [hge] at h
        | ok p =>
          obtain ⟨vo, sv⟩ := p
          simp only [hge] at h
          cases h
          exact GPost_trans (GPost_genExpr hge)
            (GPost_emitS sv .ASSIGN n vo "" rfl)
      | ret value =>
        simp only [genStmt] at h
        cases value with
        | none =>
          cases h
          exact GPost_emitS s .RETURN "" "" "" rfl
        | some e =>
          simp only [bind, Except.bind] at h
          cases hge : genExpr e s with
          | error er => simp [hge] at h
          | ok p =>
            obtain ⟨ro, sr⟩ := p
            simp only [hge] at h
            cases h
            exact GPost_trans (GPost_genExpr hge)
              (GPost_emitS sr .RETURN "" ro "" rfl)
      | ifS c thenB elseB =>
        have hthen : sizeOf thenB < N := by
          have hs := hsz
          simp only [Stmt.ifS.sizeOf_spec] at hs
          have hc : 0 < sizeOf c := by
            cases c <;> simp
          omega
        have helse : sizeOf elseB < N := by
          have hs := hsz
          simp only [Stmt.ifS.sizeOf_spec] at hs
          have hc : 0 < sizeOf c := by
            cases c <;> simp
          omega
        refine GPost_if h ?_
        intro L u u1 hL hgen
        rcases hL with hL | hL
        · subst hL
          exact (ih (sizeOf L) hthen).2 L u u1 (Nat.le_refl _) hgen
        · subst hL
          exact (ih (sizeOf L) helse).2 L u u1 (Nat.le_refl _) hgen
      | whileS c body =>
        have hbody : sizeOf body < N := by
          have hs := hsz
          simp only [Stmt.whileS.sizeOf_spec] at hs
          have hc : 0 < sizeOf c := by
            cases c <;> simp
          omega
        refine GPost_while h ?_
        intro u u1 hgen
        exact (ih (sizeOf body) hbody).2 body u u1 (Nat.le_refl _) hgen
    · intro L s s1 hsz h
      cases L with
      | nil =>
        simp only [genStmts] at h
        cases h
        exact GPost_rfl s
      | cons st rest =>
        simp only [genStmts, bind, Except.bind] at h
        cases hst : genStmt st s with
        | error er => simp [hst] at h
        | ok sm =>
          simp only [hst] at h
          have h1 : sizeOf st < N := by
            have hs := hsz
            simp only [List.cons.sizeOf_spec] at hs
            omega
          have h2 : sizeOf rest < N := by
            have hs := hsz
            simp only [List.cons.sizeOf_spec] at hs
            have : 0 < sizeOf st := by
              cases st <;> simp
            omega
          exact GPost_trans
            ((ih (sizeOf st) h1).1 st s sm (Nat.le_refl _) hst)
            ((ih (sizeOf rest) h2).2 rest sm s1 (Nat.le_refl _) h)

theorem mem_targetsOf {bs : List BasicBlock} {b : BasicBlock}
    {i : IRInstruction} {t : String} (hb : b ∈ bs) (hi : i ∈ b.instructions)
    (ht : t ∈ instrTargets i) : t ∈ targetsOf bs := by
  unfold targetsOf
  rw [List.mem_join]
  refine ⟨(b.instructions.map instrTargets).join, List.mem_map_of_mem _ hb, ?_⟩
  rw [List.mem_join]
  exact ⟨instrTargets i, List.mem_map_of_mem _ hi, ht⟩

/-- Label/target well-formedness of a fully generated function. -/
theorem genFunction_wf {g : Function} {f : IRFunction}
    (h : genFunction g = .ok f) :
    (f.blocks.map (·.label)).Nodup ∧
    ∀ t ∈ targetsOf f.blocks, t ∈ f.blocks.map (·.label) := by
  simp only [genFunction, bind, Except.bind] at h
  cases hg : genStmts g.body
      ⟨0, 1, g.parameters.foldl (fun m p => (p.name, p.name) :: m) [],
        [⟨mkLabel "entry" 0, []⟩]⟩ with
  | error e => simp [hg] at h
  | ok sF =>
    simp only [hg] at h
    cases h
    have P := (genPost_all (sizeOf g.body)).2 g.body _ sF (Nat.le_refl _) hg
    have W0 : LWF 1 [mkLabel "entry" 0] := by
      refine ⟨fun l hl => ?_, List.nodup_singleton _⟩
      simp at hl
      exact ⟨"entry", 0, by omega, hl⟩
    have WF : LWF sF.lbl (labelsOf sF.blocks) := P.2.2.2.1 W0
    constructor
    · exact WF.2
    · intro t ht
      rcases P.2.2.2.2 t ht with ht2 | ht2
      · simp [targetsOf, labelsOf] at ht2
      · exact ht2

theorem genFns_mem {l : List Function} :
    ∀ {fs : List IRFunction}, genProgram.genFns l = .ok fs →
      ∀ f ∈ fs, ∃ g, genFunction g = .ok f := by
  induction l with
  | nil =>
    intro fs h f hf
    simp only [genProgram.genFns] at h
    cases h
    simp at hf
  | cons g rest ih =>
    intro fs h f hf
    simp only [genProgram.genFns, bind, Except.bind] at h
    cases hg : genFunction g with
    | error e => simp [hg] at h
    | ok irf =>
      simp only [hg] at h
      cases hr : genProgram.genFns rest with
      | error e => simp [hr] at h
      | ok irfs =>
        simp only [hr] at h
        cases h
        rcases List.mem_cons.mp hf with hf | hf
        · exact ⟨g, hf ▸ hg⟩
        · exact ih hr f hf

/-- C4, amended: in every IRFunction of an IRProgram produced by the
IR generator, block labels are pairwise distinct, and every intended
jump target resolves to the label of a block of the same function,
where the intended target is operand2 for JUMPIF and JUMPIFNOT, and
for JUMP it is operand1 when non-empty and otherwise the result
field (the JUMPs emitted by while-lowering store the label there and
leave operand1 empty, which the code generator resolves by its
target-inference step). -/
theorem c4_labels_nodup_targets_resolved (p : Program) (irp : IRProgram)
    (h : genProgram p = .ok irp) :
    ∀ f ∈ irp.functions,
      (f.blocks.map (·.label)).Nodup ∧
      ∀ b ∈ f.blocks, ∀ i ∈ b.instructions, ∀ t ∈ instrTargets i,
        t ∈ f.blocks.map (·.label) := by
  intro f hf
  simp only [genProgram, bind, Except.bind] at h
  cases hg : genProgram.genFns p.functions with
  | error e => simp [hg] at h
  | ok fs =>
    simp only [hg] at h
    cases h
    obtain ⟨g, hgen⟩ := genFns_mem hg f hf
    obtain ⟨hnodup, htargets⟩ := genFunction_wf hgen
    refine ⟨hnodup, fun b hb i hi t ht => ?_⟩
    exact htargets t (mem_targetsOf hb hi ht)

/-- C4, witness: the amended theorem applied to the program
int main with body return 0. -/
theorem c4_witness :
    ((IRFunction.mk "main" .KEYWORD_INT []
        [⟨"entry_0",
          [⟨.ASSIGN, "t0", "0", ""⟩, ⟨.RETURN, "", "t0", ""⟩]⟩]).blocks.map
      (·.label)).Nodup ∧
    ∀ b ∈ (IRFunction.mk "main" .KEYWORD_INT []
        [⟨"entry_0",
          [⟨.ASSIGN, "t0", "0", ""⟩, ⟨.RETURN, "", "t0", ""⟩]⟩]).blocks,
      ∀ i ∈ b.instructions, ∀ t ∈ instrTargets i,
        t ∈ (IRFunction.mk "main" .KEYWORD_INT []
          [⟨"entry_0",
            [⟨.ASSIGN, "t0", "0", ""⟩, ⟨.RETURN, "", "t0", ""⟩]⟩]).blocks.map
          (·.label) :=
  c4_labels_nodup_targets_resolved
    ⟨[⟨"main", .KEYWORD_INT, [], [Stmt.ret (some (Expr.intLit 0))]⟩]⟩
    _ (by rfl) _ (by decide)

/-- C4, counterexample: the while program is semantically valid and
reaches the IR generator, yet the JUMP closing its entry block has an
empty operand1 (the label sits in the result field), and the empty
string is not the label of any block; so the claim that the operand
field read by the code generator always names an existing block is
false. -/
theorem c4_counterexample :
    visitProgram
        ⟨[⟨"main", .KEYWORD_INT, [],
          [Stmt.varDecl .KEYWORD_INT "i" (some (Expr.intLit 0)),
           Stmt.whileS (Expr.binary (Expr.ident "i") .OP_LESS (Expr.intLit 10))
             [Stmt.assign "i" (Expr.binary (Expr.ident "i") .OP_PLUS (Expr.intLit 1))],
           Stmt.ret (some (Expr.ident "i"))]⟩]⟩ initSemState =
      .ok ⟨[[]], [("main", .KEYWORD_INT)], .KEYWORD_INT⟩ ∧
    genProgram
        ⟨[⟨"main", .KEYWORD_INT, [],
          [Stmt.varDecl .KEYWORD_INT "i" (some (Expr.intLit 0)),
           Stmt.whileS (Expr.binary (Expr.ident "i") .OP_LESS (Expr.intLit 10))
             [Stmt.assign "i" (Expr.binary (Expr.ident "i") .OP_PLUS (Expr.intLit 1))],
           Stmt.ret (some (Expr.ident "i"))]⟩]⟩ =
      .ok ⟨[⟨"main", .KEYWORD_INT, [],
        [⟨"entry_0",
          [⟨.ASSIGN, "t0", "0", ""⟩, ⟨.ASSIGN, "i", "t0", ""⟩,
           ⟨.JUMP, "while_cond_1", "", ""⟩]⟩,
         ⟨"while_cond_1",
          [⟨.ASSIGN, "t1", "10", ""⟩, ⟨.LT, "t2", "i", "t1"⟩,
           ⟨.JUMPIFNOT, "", "t2", "while_end_3"⟩]⟩,
         ⟨"while_body_2",
          [⟨.ASSIGN, "t3", "1", ""⟩, ⟨.ADD, "t4", "i", "t3"⟩,
           ⟨.ASSIGN, "i", "t4", ""⟩, ⟨.JUMP, "while_cond_1", "", ""⟩]⟩,
         ⟨"while_end_3", [⟨.RETURN, "", "i", ""⟩]⟩]⟩]⟩ ∧
    (⟨.JUMP, "while_cond_1", "", ""⟩ : IRInstruction).operand1 = "" ∧
    "" ∉ ["entry_0", "while_cond_1", "while_body_2", "while_end_3"] := by
  refine ⟨rfl, rfl, rfl, by decide⟩

/-- C9: lowering an If statement whose else branch is empty still
creates the else-labeled block, that block's only instruction is the
JUMP to the end label, and the end-labeled block is created
immediately after it; in this embedding the current block is always
the last block of the function, so the trailing end block is the new
current block. -/
theorem c9_if_without_else (c : Expr) (thenB : List Stmt) (s s1 : GenState)
    (h : genStmt (Stmt.ifS c thenB []) s = .ok s1) :
    ∃ bs k,
      s1.blocks = bs ++
        [⟨mkLabel "if_else" (k + 1), [⟨.JUMP, "", mkLabel "if_end" (k + 2), ""⟩]⟩,
         ⟨mkLabel "if_end" (k + 2), []⟩] := by
  simp only [genStmt, bind, Except.bind] at h
  cases hc : genExpr c s with
  | error e => simp [hc] at h
  | ok p =>
    obtain ⟨co, sc⟩ := p
    simp only [hc] at h
    cases hg : genStmts thenB
        (pushBlock (emitS { sc with lbl := sc.lbl + 3 } .JUMPIFNOT "" co
          (mkLabel "if_else" (sc.lbl + 1))) (mkLabel "if_then" sc.lbl)) with
    | error e => simp [hg] at h
    | ok s4 =>
      simp only [hg, genStmts] at h
      cases h
      refine ⟨(emitS s4 .JUMP "" (mkLabel "if_end" (sc.lbl + 2)) "").blocks,
        sc.lbl, ?_⟩
      simp only [pushBlock, emitS, emitB_append_last]
      simp

/-- C9, witness: the theorem applied to if (1) with empty then and
else branches, lowered from a fresh function state. -/
theorem c9_witness :
    ∃ bs k,
      (⟨1, 4, [],
        [⟨"entry_0",
          [⟨.ASSIGN, "t0", "1", ""⟩, ⟨.JUMPIFNOT, "", "t0", "if_else_2"⟩]⟩,
         ⟨"if_then_1", [⟨.JUMP, "", "if_end_3", ""⟩]⟩,
         ⟨"if_else_2", [⟨.JUMP, "", "if_end_3", ""⟩]⟩,
         ⟨"if_end_3", []⟩]⟩ : GenState).blocks = bs ++
        [⟨mkLabel "if_else" (k + 1), [⟨.JUMP, "", mkLabel "if_end" (k + 2), ""⟩]⟩,
         ⟨mkLabel "if_end" (k + 2), []⟩] :=
  c9_if_without_else (Expr.intLit 1) [] ⟨0, 1, [], [⟨"entry_0", []⟩]⟩ _ (by rfl)

/-! ## Code generator (minic/CodeGenerator.cpp)

The code generator streams NASM text lines.  Because a thrown
exception leaves everything already streamed in the output file, the
emitters return the lines written so far together with an optional
error, rather than an all-or-nothing Except value. -/

/-- Substring test on character lists, mirroring std::string::find. -/
def listHasSubstr (hay needle : List Char) : Bool :=
  match hay with
  | [] => needle = []
  | _ :: rest => needle.isPrefixOf hay || listHasSubstr rest needle

/-- Substring test mirroring s.find(sub) != npos. -/
def hasSubstr (s sub : String) : Bool := listHasSubstr s.data sub.data

/-- All-digits test mirroring find_first_not_of("0123456789") == npos
(true on the empty string). -/
def allDigits (s : String) : Bool := s.data.all Char.isDigit

/-- Lookup in an association list of stack offsets; insertions
prepend, so the first match is the most recent assignment, matching
std::unordered_map overwrite semantics. -/
def ofind (m : List (String × Nat)) (k : String) : Option Nat :=
  match m with
  | [] => none
  | (a, v) :: rest => if a = k then some v else ofind rest k

/-- Offset table built by the two allocation passes: each name in
order gets the next 8-byte offset, later entries prepended. -/
def buildOffsets : List String → Nat → List (String × Nat) →
    List (String × Nat)
  | [], _, acc => acc
  | n :: ns, off, acc => buildOffsets ns (off + 8) ((n, off + 8) :: acc)

/-- Round a byte count up to a multiple of 16, as allocate_stack
does. -/
def roundUp16 (n : Nat) : Nat :=
  if n % 16 = 0 then n else ((n + 15) / 16) * 16

/-- One instruction's contribution to the slot-name collection of
allocate_stack: the result when non-empty and not a label; each
operand when non-empty, not all digits and not a label.  The
collection is kept as an insertion-ordered duplicate-free list; the
C++ std::unordered_set has unspecified order, which the later sort
erases. -/
def collectInstrVars (labels : List String) (acc : List String)
    (i : IRInstruction) : List String :=
  let acc1 := if i.result ≠ "" ∧ i.result ∉ labels ∧ i.result ∉ acc then
      acc ++ [i.result] else acc
  let acc2 := if i.operand1 ≠ "" ∧ ¬ allDigits i.operand1 ∧
      i.operand1 ∉ labels ∧ i.operand1 ∉ acc1 then
      acc1 ++ [i.operand1] else acc1
  if i.operand2 ≠ "" ∧ ¬ allDigits i.operand2 ∧
      i.operand2 ∉ labels ∧ i.operand2 ∉ acc2 then
    acc2 ++ [i.operand2] else acc2

/-- The slot-name set of allocate_stack: parameters first, then every
collected name. -/
def allVarsOf (f : IRFunction) : List String :=
  let labels := f.blocks.map (·.label)
  let acc0 := f.parameters.foldl
    (fun a p => if p.name ∉ a then a ++ [p.name] else a) []
  f.blocks.foldl (fun a b => b.instructions.foldl (collectInstrVars labels) a)
    acc0

/-- Collected names that are not parameters. -/
def localsOf (f : IRFunction) : List String :=
  (allVarsOf f).filter (fun v => v ∉ f.parameters.map (·.name))

/-- Lexicographic less-or-equal on character lists, by code point;
the comparison std::string performs. -/
def strLeChars : List Char → List Char → Bool
  | [], _ => true
  | _ :: _, [] => false
  | a :: as, b :: bs =>
    if a.toNat < b.toNat then true
    else if b.toNat < a.toNat then false
    else strLeChars as bs

/-- Lexicographic less-or-equal on strings. -/
def strLe (a b : String) : Bool := strLeChars a.data b.data

theorem strLeChars_total : ∀ as bs : List Char,
    strLeChars as bs = true ∨ strLeChars bs as = true := by
  intro as
  induction as with
  | nil => intro bs; exact Or.inl rfl
  | cons a as ih =>
    intro bs
    cases bs with
    | nil => exact Or.inr rfl
    | cons b bs =>
      rcases Nat.lt_trichotomy a.toNat b.toNat with hab | hab | hab
      · left
        simp [strLeChars, hab]
      · rcases ih bs with h | h
        · left
          simp [strLeChars, hab, h]
        · right
          simp [strLeChars, hab.symm, h]
      · right
        simp [strLeChars, hab]

theorem strLe_total (a b : String) : strLe a b = true ∨ strLe b a = true :=
  strLeChars_total a.data b.data

/-- Insert into a sorted list, keeping it sorted. -/
def insertSorted (x : String) : List String → List String
  | [] => [x]
  | y :: ys => if strLe x y then x :: y :: ys else y :: insertSorted x ys

/-- Insertion sort by lexicographic order, the canonical result of
std::sort over the collected distinct names. -/
def sortStrings : List String → List String
  | [] => []
  | x :: xs => insertSorted x (sortStrings xs)

/-- Locals sorted ascending by name, as std::sort produces. -/
def sortedLocalsOf (f : IRFunction) : List String :=
  sortStrings (localsOf f)

/-- CodeGenerator.allocate_stack: offsets for parameters in
declaration order, then sorted locals, 8 bytes each; the final
stack_offset_ is rounded up to a multiple of 16. -/
def allocateStack (f : IRFunction) : List (String × Nat) × Nat :=
  let names := f.parameters.map (·.name) ++ sortedLocalsOf f
  (buildOffsets names 0 [], roundUp16 (8 * names.length))

/-- Code generator per-function state. -/
structure CGState where
  varOffsets : List (String × Nat)
  stackOffset : Nat
  lastWritten : String
  labels : List String
  blockLabels : List String
  currentBlock : String
  currentFn : String
  deriving DecidableEq, Repr

/-- CodeGenerator.get_loc. -/
def getLoc (st : CGState) (name : String) : String × CGState :=
  if name = "" then ("0", st)
  else if allDigits name then (name, st)
  else if name ∈ st.labels then (name, st)
  else
    match ofind st.varOffsets name with
    | some off => ("[rbp - " ++ natRepr off ++ "]", st)
    | none =>
      let newOff := st.stackOffset + 8
      let stNew : CGState := { st with stackOffset := newOff, varOffsets := (name, newOff) :: st.varOffsets }
      ("[rbp - " ++ natRepr newOff ++ "]", stNew)

/-- CodeGenerator.infer_target_label_for_current_block. -/
def inferTarget (st : CGState) : String :=
  let found := if hasSubstr st.currentBlock "body" then
      match st.blockLabels.find? (fun l => hasSubstr l "cond") with
      | some l => l
      | none => ""
    else ""
  if found ≠ "" then found
  else
    let idx := (st.blockLabels.indexOf st.currentBlock)
    if idx + 1 < st.blockLabels.length then
      st.blockLabels.getD (idx + 1) ""
    else ""

/-- Lines for the mov/cmp/set pattern shared by the comparisons. -/
def cmpLines (setOp : String) (resLoc op1Loc op2Loc : String) : List String :=
  ["    mov rax, " ++ op1Loc,
   "    cmp rax, " ++ op2Loc,
   "    " ++ setOp ++ " al",
   "    movzx rax, al",
   "    mov " ++ resLoc ++ ", rax"]

/-- CodeGenerator.emit_instruction: returns the lines written and the
updated state, with an optional error for unsupported opcodes (LOAD,
STORE, LABEL hit the default case). -/
def emitInstruction (st0 : CGState) (instr : IRInstruction) :
    List String × CGState × Option String :=
  let (resLoc, st1) := getLoc st0 instr.result
  let (op1Loc0, st2) := getLoc st1 instr.operand1
  let (op2Loc, st3) := getLoc st2 instr.operand2
  let op1Loc := if (instr.opcode = .JUMPIF ∨ instr.opcode = .JUMPIFNOT) ∧
      (instr.operand1 = "" ∨ op1Loc0 = "0") ∧ st3.lastWritten ≠ "" then
      st3.lastWritten else op1Loc0
  let writeBack (st : CGState) : CGState :=
    if instr.result ≠ "" ∧ instr.opcode ≠ .JUMP ∧ instr.opcode ≠ .JUMPIF ∧
        instr.opcode ≠ .JUMPIFNOT ∧ instr.opcode ≠ .RETURN then
      { st with lastWritten := resLoc } else st
  match instr.opcode with
  | .ASSIGN =>
    if allDigits instr.operand1 then
      (if hasSubstr resLoc "[rbp" then
        ["    mov qword " ++ resLoc ++ ", " ++ instr.operand1]
      else
        ["    mov " ++ resLoc ++ ", " ++ instr.operand1],
        writeBack st3, none)
    else
      (["    mov rax, " ++ op1Loc, "    mov " ++ resLoc ++ ", rax"],
        writeBack st3, none)
  | .ADD =>
    (["    mov rax, " ++ op1Loc, "    add rax, " ++ op2Loc,
      "    mov " ++ resLoc ++ ", rax"], writeBack st3, none)
  | .SUB =>
    (["    mov rax, " ++ op1Loc, "    sub rax, " ++ op2Loc,
      "    mov " ++ resLoc ++ ", rax"], writeBack st3, none)
  | .MUL =>
    (["    mov rax, " ++ op1Loc, "    imul rax, " ++ op2Loc,
      "    mov " ++ resLoc ++ ", rax"], writeBack st3, none)
  | .DIV =>
    (["    mov rax, " ++ op1Loc, "    cqo", "    mov rbx, " ++ op2Loc,
      "    idiv rbx", "    mov " ++ resLoc ++ ", rax"], writeBack st3, none)
  | .NEG =>
    (["    mov rax, " ++ op1Loc, "    neg rax",
      "    mov " ++ resLoc ++ ", rax"], writeBack st3, none)
  | .NOT =>
    (["    mov rax, " ++ op1Loc, "    test rax, rax", "    setz al",
      "    movzx rax, al", "    mov " ++ resLoc ++ ", rax"],
      writeBack st3, none)
  | .EQ => (cmpLines "sete" resLoc op1Loc op2Loc, writeBack st3, none)
  | .NEQ => (cmpLines "setne" resLoc op1Loc op2Loc, writeBack st3, none)
  | .LT => (cmpLines "setl" resLoc op1Loc op2Loc, writeBack st3, none)
  | .GT => (cmpLines "setg" resLoc op1Loc op2Loc, writeBack st3, none)
  | .LE => (cmpLines "setle" resLoc op1Loc op2Loc, writeBack st3, none)
  | .GE => (cmpLines "setge" resLoc op1Loc op2Loc, writeBack st3, none)
  | .JUMP =>
    let target := if instr.operand1 = "" then inferTarget st3 else instr.operand1
    if target = "" then
      (["    ; missing jump target in " ++ st3.currentFn ++ " " ++
        st3.currentBlock], st3, none)
    else
      (["    jmp " ++ target], st3, none)
  | .JUMPIF =>
    let target := if instr.operand2 = "" then inferTarget st3 else instr.operand2
    if target = "" then
      (["    mov rax, " ++ op1Loc, "    cmp rax, 0",
        "    ; missing jump target (JUMPIF) in " ++ st3.currentFn ++ " " ++
          st3.currentBlock], st3, none)
    else
      (["    mov rax, " ++ op1Loc, "    cmp rax, 0", "    jne " ++ target],
        st3, none)
  | .JUMPIFNOT =>
    let target := if instr.operand2 = "" then inferTarget st3 else instr.operand2
    if target = "" then
      (["    mov rax, " ++ op1Loc, "    cmp rax, 0",
        "    ; missing jump target (JUMPIFNOT) in " ++ st3.currentFn ++ " " ++
          st3.currentBlock], st3, none)
    else
      (["    mov rax, " ++ op1Loc, "    cmp rax, 0", "    je " ++ target],
        st3, none)
  | .RETURN =>
    ((if instr.operand1 ≠ "" then ["    mov rax, " ++ op1Loc] else []) ++
      ["    jmp " ++ st3.currentFn ++ "_epilogue"], st3, none)
  | _ => ([], st3, some "Unsupported IR opcode in NASM codegen")

/-- Emit the instructions of one block, stopping at the first error
but keeping the lines already written. -/
def emitInstrs (st : CGState) : List IRInstruction →
    List String × CGState × Option String
  | [] => ([], st, none)
  | i :: rest =>
    match emitInstruction st i with
    | (ls, st1, some e) => (ls, st1, some e)
    | (ls, st1, none) =>
      match emitInstrs st1 rest with
      | (ls2, st2, r) => (ls ++ ls2, st2, r)

/-- Opcode test for the fall-through management of emit_block. -/
def isBranch (op : IROpcode) : Bool :=
  op = .JUMP || op = .JUMPIF || op = .JUMPIFNOT || op = .RETURN

/-- CodeGenerator.emit_block: label line, instructions, and an
explicit jmp to the next block when the block does not end in a
branch or return (also for empty blocks). -/
def emitBlock (st0 : CGState) (b : BasicBlock) :
    List String × CGState × Option String :=
  let st := { st0 with currentBlock := b.label }
  match emitInstrs st b.instructions with
  | (ls, st1, some e) => ((b.label ++ ":") :: ls, st1, some e)
  | (ls, st1, none) =>
    let idx := st1.blockLabels.indexOf st1.currentBlock
    let autoJmp :=
      match b.instructions.getLast? with
      | some last =>
        if ¬ isBranch last.opcode ∧ idx + 1 < st1.blockLabels.length then
          ["    jmp " ++ st1.blockLabels.getD (idx + 1) ""]
        else []
      | none =>
        if idx + 1 < st1.blockLabels.length then
          ["    jmp " ++ st1.blockLabels.getD (idx + 1) ""]
        else []
    ((b.label ++ ":") :: (ls ++ autoJmp), st1, none)

/-- Emit a list of blocks, stopping at the first error. -/
def emitBlocks (st : CGState) : List BasicBlock →
    List String × CGState × Option String
  | [] => ([], st, none)
  | b :: rest =>
    match emitBlock st b with
    | (ls, st1, some e) => (ls, st1, some e)
    | (ls, st1, none) =>
      match emitBlocks st1 rest with
      | (ls2, st2, r) => (ls ++ ls2, st2, r)

/-- System V argument registers used for parameter pickup. -/
def paramRegs : List String := ["rdi", "rsi", "rdx", "rcx", "r8", "r9"]

/-- Moves of the first up to six parameters into their stack slots. -/
def paramMoves (offsets : List (String × Nat)) (params : List Parameter) :
    List String :=
  ((params.take 6).zip (paramRegs.take params.length)).map
    (fun pr => "    mov [rbp - " ++
      natRepr ((ofind offsets pr.1.name).getD 0) ++ "], " ++ pr.2)

/-- CodeGenerator.emit_function: prologue, parameter pickup, blocks,
epilogue; on an error inside a block the lines already written are
kept and the epilogue is not reached. -/
def emitFunction (func : IRFunction) : List String × Option String :=
  let labels := func.blocks.map (·.label)
  let (offsets, frame) := allocateStack func
  let st0 : CGState := ⟨offsets, frame, "", labels, labels, "", func.name⟩
  let prologue := [func.name ++ ":", "    push rbp", "    mov rbp, rsp"] ++
    (if frame > 0 then ["    sub rsp, " ++ natRepr frame] else []) ++
    paramMoves offsets func.parameters
  match emitBlocks st0 func.blocks with
  | (ls, _, some e) => (prologue ++ ls, some e)
  | (ls, _, none) =>
    (prologue ++ ls ++ [func.name ++ "_epilogue:", "    leave", "    ret", ""],
      none)

/-- Emit every function, stopping at the first error. -/
def emitFunctions : List IRFunction → List String × Option String
  | [] => ([], none)
  | f :: rest =>
    match emitFunction f with
    | (ls, some e) => (ls, some e)
    | (ls, none) =>
      match emitFunctions rest with
      | (ls2, r) => (ls ++ ls2, r)

/-- Fixed preamble written by CodeGenerator.generate before any
function is emitted (the trailing empty string is the blank line). -/
def preambleLines : List String :=
  ["section .data", "section .text", "global _start", "_start:",
   "    call main", "    mov rdi, rax", "    mov rax, 60", "    syscall", ""]

/-- CodeGenerator.generate: the output file is opened with
truncation, the preamble is written, then the functions; an exception
thrown mid-way leaves the file holding everything written so far. -/
def generateFile (p : IRProgram) : List String × Option String :=
  match emitFunctions p.functions with
  | (ls, r) => (preambleLines ++ ls, r)

theorem nodup_append_guard {acc : List String} {x : String} {c : Prop}
    [Decidable c] (h : acc.Nodup) (hc : c → x ∉ acc) :
    (if c then acc ++ [x] else acc).Nodup := by
  split
  · next hcc =>
    rw [List.nodup_append]
    refine ⟨h, List.nodup_singleton _, ?_⟩
    intro a ha hb
    simp at hb
    subst hb
    exact hc hcc ha
  · exact h

theorem nodup_collectInstrVars (labels : List String) (acc : List String)
    (i : IRInstruction) (h : acc.Nodup) :
    (collectInstrVars labels acc i).Nodup := by
  unfold collectInstrVars
  refine nodup_append_guard (nodup_append_guard (nodup_append_guard h ?_) ?_) ?_
  · exact fun hc => hc.2.2
  · exact fun hc => hc.2.2.2
  · exact fun hc => hc.2.2.2

theorem nodup_foldl_collect (labels : List String) :
    ∀ (l : List IRInstruction) (acc : List String), acc.Nodup →
      (l.foldl (collectInstrVars labels) acc).Nodup := by
  intro l
  induction l with
  | nil => intro acc h; exact h
  | cons i rest ih =>
    intro acc h
    exact ih _ (nodup_collectInstrVars labels acc i h)

theorem nodup_allVarsOf (f : IRFunction) : (allVarsOf f).Nodup := by
  unfold allVarsOf
  have hacc : ∀ (ps : List Parameter) (acc : List String), acc.Nodup →
      (ps.foldl (fun a p => if p.name ∉ a then a ++ [p.name] else a) acc).Nodup := by
    intro ps
    induction ps with
    | nil => intro acc h; exact h
    | cons p rest ih =>
      intro acc h
      refine ih _ ?_
      exact nodup_append_guard h (fun hc => hc)
  have hblocks : ∀ (bs : List BasicBlock) (acc : List String), acc.Nodup →
      (bs.foldl (fun a b => b.instructions.foldl
        (collectInstrVars (f.blocks.map (·.label))) a) acc).Nodup := by
    intro bs
    induction bs with
    | nil => intro acc h; exact h
    | cons b rest ih =>
      intro acc h
      exact ih _ (nodup_foldl_collect _ _ _ h)
  exact hblocks f.blocks _ (hacc f.parameters [] List.nodup_nil)

theorem nodup_localsOf (f : IRFunction) : (localsOf f).Nodup :=
  (nodup_allVarsOf f).filter _

theorem insertSorted_perm (x : String) (l : List String) :
    List.Perm (insertSorted x l) (x :: l) := by
  induction l with
  | nil => exact List.Perm.refl _
  | cons y ys ih =>
    unfold insertSorted
    split
    · exact List.Perm.refl _
    · exact List.Perm.trans (List.Perm.cons y ih) (List.Perm.swap x y ys)

theorem sortStrings_perm (l : List String) :
    List.Perm (sortStrings l) l := by
  induction l with
  | nil => exact List.Perm.refl _
  | cons x xs ih =>
    exact List.Perm.trans (insertSorted_perm x (sortStrings xs))
      (List.Perm.cons x ih)

theorem nodup_sortedLocalsOf (f : IRFunction) : (sortedLocalsOf f).Nodup :=
  ((sortStrings_perm (localsOf f)).nodup_iff).mpr (nodup_localsOf f)

theorem mem_sortedLocalsOf {f : IRFunction} {x : String}
    (h : x ∈ sortedLocalsOf f) : x ∉ f.parameters.map (·.name) := by
  have hx : x ∈ localsOf f := (sortStrings_perm (localsOf f)).mem_iff.mp h
  unfold localsOf at hx
  have := List.of_mem_filter hx
  simpa using this

theorem insertSorted_head (x : String) (l : List String) :
    (insertSorted x l).head? = some x ∨ (insertSorted x l).head? = l.head? := by
  cases l with
  | nil => exact Or.inl rfl
  | cons y ys =>
    unfold insertSorted
    split
    · exact Or.inl rfl
    · exact Or.inr rfl

theorem chain'_insertSorted (x : String) (l : List String)
    (h : List.Chain' (fun a b => strLe a b = true) l) :
    List.Chain' (fun a b => strLe a b = true) (insertSorted x l) := by
  induction l with
  | nil => simp [insertSorted]
  | cons y ys ih =>
    unfold insertSorted
    split
    · next hxy =>
      exact List.chain'_cons.mpr ⟨hxy, h⟩
    · next hxy =>
      have hyx : strLe y x = true := by
        rcases strLe_total x y with h2 | h2
        · exact absurd h2 hxy
        · exact h2
      have hys : List.Chain' (fun a b => strLe a b = true) ys :=
        (List.chain'_cons'.mp h).2
      have hyhead : ∀ z ∈ ys.head?, strLe y z = true :=
        (List.chain'_cons'.mp h).1
      refine List.chain'_cons'.mpr ⟨?_, ih hys⟩
      intro z hz
      rcases insertSorted_head x ys with hh | hh
      · rw [hh] at hz
        simp at hz
        subst hz
        exact hyx
      · rw [hh] at hz
        exact hyhead z hz

theorem chain'_sortStrings (l : List String) :
    List.Chain' (fun a b => strLe a b = true) (sortStrings l) := by
  induction l with
  | nil => simp [sortStrings]
  | cons x xs ih => exact chain'_insertSorted x (sortStrings xs) ih

theorem ofind_buildOffsets_notmem :
    ∀ (ns : List String) (b : Nat) (acc : List (String × Nat)) (k : String),
      k ∉ ns → ofind (buildOffsets ns b acc) k = ofind acc k := by
  intro ns
  induction ns with
  | nil => intro b acc k hk; rfl
  | cons n rest ih =>
    intro b acc k hk
    simp only [buildOffsets]
    rw [ih _ _ k (fun hm => hk (List.mem_cons_of_mem n hm))]
    simp only [ofind]
    rw [if_neg]
    intro he
    exact hk (he ▸ List.mem_cons_self n rest)

theorem ofind_buildOffsets :
    ∀ (ns : List String), ns.Nodup →
      ∀ (b : Nat) (acc : List (String × Nat)) (i : Nat) (h : i < ns.length),
        ofind (buildOffsets ns b acc) (ns.get ⟨i, h⟩) = some (b + 8 * (i + 1)) := by
  intro ns
  induction ns with
  | nil => intro hnd b acc i h; simp at h
  | cons n rest ih =>
    intro hnd b acc i h
    cases i with
    | zero =>
      simp only [buildOffsets, List.get]
      rw [ofind_buildOffsets_notmem rest (b + 8) _ n
        (by simp at hnd; exact hnd.1)]
      simp [ofind]
    | succ j =>
      simp only [buildOffsets, List.get]
      have hj : j < rest.length := by simpa using h
      rw [ih (by simp at hnd; exact hnd.2) (b + 8) _ j hj]
      congr 1
      omega

/-- C8: stack slot assignment of allocate_stack.  With the parameter
names pairwise distinct (guaranteed for IR reaching the code
generator, since the semantic analyzer rejects duplicate
parameters): the i-th parameter gets offset 8*(i+1); the locals and
temporaries follow in ascending name order at successive 8-byte
offsets; and the frame size reserved by sub rsp is the total slot
bytes rounded up to a multiple of 16. -/
theorem c8_stack_allocation (f : IRFunction)
    (hnd : (f.parameters.map (·.name)).Nodup) :
    (∀ i (h : i < f.parameters.length),
      ofind (allocateStack f).1 (f.parameters.get ⟨i, h⟩).name =
        some (8 * (i + 1))) ∧
    List.Chain' (fun a b => strLe a b = true) (sortedLocalsOf f) ∧
    (∀ j (h : j < (sortedLocalsOf f).length),
      ofind (allocateStack f).1 ((sortedLocalsOf f).get ⟨j, h⟩) =
        some (8 * (f.parameters.length + j + 1))) ∧
    (allocateStack f).2 =
      roundUp16 (8 * (f.parameters.length + (sortedLocalsOf f).length)) ∧
    (allocateStack f).2 % 16 = 0 ∧
    8 * (f.parameters.length + (sortedLocalsOf f).length) ≤
      (allocateStack f).2 ∧
    (allocateStack f).2 <
      8 * (f.parameters.length + (sortedLocalsOf f).length) + 16 ∧
    ((allocateStack f).2 > 0 →
      (emitFunction f).1.get? 3 =
        some ("    sub rsp, " ++ natRepr (allocateStack f).2)) := by
  have hnames : (f.parameters.map (·.name) ++ sortedLocalsOf f).Nodup := by
    rw [List.nodup_append]
    exact ⟨hnd, nodup_sortedLocalsOf f, fun a ha hb => (mem_sortedLocalsOf hb) ha⟩
  have hlen : (f.parameters.map (·.name) ++ sortedLocalsOf f).length =
      f.parameters.length + (sortedLocalsOf f).length := by
    simp
  have hfst : (allocateStack f).1 =
      buildOffsets (f.parameters.map (·.name) ++ sortedLocalsOf f) 0 [] := rfl
  have hsnd : (allocateStack f).2 =
      roundUp16 (8 * ((f.parameters.map (·.name) ++ sortedLocalsOf f)).length) :=
    rfl
  refine ⟨?_, chain'_sortStrings _, ?_, ?_, ?_, ?_, ?_, ?_⟩
  · intro i h
    have hi : i < (f.parameters.map (·.name) ++ sortedLocalsOf f).length := by
      rw [hlen]
      omega
    have hget : (f.parameters.map (·.name) ++ sortedLocalsOf f).get ⟨i, hi⟩ =
        (f.parameters.get ⟨i, h⟩).name := by
      rw [List.get_append _ (by simpa using h)]
      simp
    rw [hfst, ← hget, ofind_buildOffsets _ hnames 0 [] i hi]
    congr 1
    omega
  · intro j h
    have hj : f.parameters.length + j <
        (f.parameters.map (·.name) ++ sortedLocalsOf f).length := by
      rw [hlen]
      omega
    have hget : (f.parameters.map (·.name) ++ sortedLocalsOf f).get
        ⟨f.parameters.length + j, hj⟩ = (sortedLocalsOf f).get ⟨j, h⟩ := by
      rw [List.get_append_right]
      · simp
      · simp
      · simpa using h
    rw [hfst, ← hget, ofind_buildOffsets _ hnames 0 []
      (f.parameters.length + j) hj]
    congr 1
    omega
  · rw [hsnd, hlen]
  · rw [hsnd]
    unfold roundUp16
    split <;> omega
  · rw [hsnd, hlen]
    unfold roundUp16
    split <;> omega
  · rw [hsnd, hlen]
    unfold roundUp16
    split <;> omega
  · intro hpos
    unfold emitFunction
    rcases hb : emitBlocks
        ⟨(allocateStack f).1, (allocateStack f).2, "",
          f.blocks.map (·.label), f.blocks.map (·.label), "", f.name⟩
        f.blocks with ⟨ls, stx, r⟩
    cases r with
    | none =>
      simp only [hb, if_pos hpos]
      rfl
    | some e =>
      simp only [hb, if_pos hpos]
      rfl

/-- C8, witness: the allocation theorem applied to a concrete
function with parameters a and b and collected locals t0 and z. -/
theorem c8_witness :
    ofind (allocateStack ⟨"f", .KEYWORD_INT,
        [⟨.KEYWORD_INT, "a"⟩, ⟨.KEYWORD_INT, "b"⟩],
        [⟨"entry_0", [⟨.ASSIGN, "z", "5", ""⟩, ⟨.RETURN, "", "t0", ""⟩]⟩]⟩).1
      "a" = some 8 ∧
    (allocateStack ⟨"f", .KEYWORD_INT,
        [⟨.KEYWORD_INT, "a"⟩, ⟨.KEYWORD_INT, "b"⟩],
        [⟨"entry_0", [⟨.ASSIGN, "z", "5", ""⟩, ⟨.RETURN, "", "t0", ""⟩]⟩]⟩).2
      = 32 := by
  have h := c8_stack_allocation ⟨"f", .KEYWORD_INT,
    [⟨.KEYWORD_INT, "a"⟩, ⟨.KEYWORD_INT, "b"⟩],
    [⟨"entry_0", [⟨.ASSIGN, "z", "5", ""⟩, ⟨.RETURN, "", "t0", ""⟩]⟩]⟩
    (by decide)
  exact ⟨h.1 0 (by decide), by decide⟩

/-- C3, counterexample: code generation of a program whose only
instruction has the unsupported opcode LOAD fails, yet the output
file (truncated and written incrementally by generate) is left
holding the preamble, the prologue of main and the entry label - a
proper prefix of the assembly text; so the claim that no partial
output is produced is false. -/
theorem c3_counterexample :
    generateFile ⟨[⟨"main", .KEYWORD_INT, [],
        [⟨"entry_0", [⟨.LOAD, "x", "y", ""⟩]⟩]⟩]⟩ =
      (["section .data", "section .text", "global _start", "_start:",
        "    call main", "    mov rdi, rax", "    mov rax, 60",
        "    syscall", "", "main:", "    push rbp", "    mov rbp, rsp",
        "    sub rsp, 16", "entry_0:"],
       some "Unsupported IR opcode in NASM codegen") ∧
    (["section .data", "section .text", "global _start", "_start:",
      "    call main", "    mov rdi, rax", "    mov rax, 60",
      "    syscall", "", "main:", "    push rbp", "    mov rbp, rsp",
      "    sub rsp, 16", "entry_0:"] : List String) ≠ [] := by
  exact ⟨rfl, by simp⟩

/-- C3, amended: when code generation fails partway (for example on
an unsupported opcode), the output file is not cleaned up: it is left
holding the preamble and every line emitted before the failing
instruction, because generate truncates and opens the file first and
streams lines as they are produced. -/
theorem c3_failure_leaves_partial_output (p : IRProgram) (e : String)
    (h : (generateFile p).2 = some e) :
    (generateFile p).1.take preambleLines.length = preambleLines ∧
    (generateFile p).1 ≠ [] := by
  rcases hef : emitFunctions p.functions with ⟨ls, r⟩
  have hg : generateFile p = (preambleLines ++ ls, r) := by
    simp [generateFile, hef]
  rw [hg]
  constructor
  · exact List.take_left ..
  · simp [preambleLines]

/-- C3, witness: the amended theorem applied to the LOAD program. -/
theorem c3_witness :
    (generateFile ⟨[⟨"main", .KEYWORD_INT, [],
        [⟨"entry_0", [⟨.LOAD, "x", "y", ""⟩]⟩]⟩]⟩).1.take
        preambleLines.length = preambleLines ∧
    (generateFile ⟨[⟨"main", .KEYWORD_INT, [],
        [⟨"entry_0", [⟨.LOAD, "x", "y", ""⟩]⟩]⟩]⟩).1 ≠ [] :=
  c3_failure_leaves_partial_output
    ⟨[⟨"main", .KEYWORD_INT, [], [⟨"entry_0", [⟨.LOAD, "x", "y", ""⟩]⟩]⟩]⟩
    "Unsupported IR opcode in NASM codegen" (by rfl)

/-! ## Lexer, brace-delimited variant (src/src/Lexer.cpp)

This is the lexer the pipeline driver links against.  Lexical errors
are std::runtime_error values carrying a message; std::out_of_range
escaping from std::stoi inside scan_number is a distinct failure
since only std::invalid_argument is caught there. -/

/-- Failure modes of the lexers. -/
inductive LexFail where
  | err (msg : String)
  | stoiOutOfRange
  deriving DecidableEq, Repr

/-- Position update of Lexer.advance for one consumed character. -/
def advancePos (ch : Char) (line col : Nat) : Nat × Nat :=
  if ch = '\n' then (line + 1, 1) else (line, col + 1)

/-- Lexer.skip_whitespace: consume spaces, tabs and carriage
returns. -/
def skipWS : List Char → Nat → Nat → List Char × Nat × Nat
  | [], line, col => ([], line, col)
  | c :: rest, line, col =>
    if c = ' ' ∨ c = '\t' ∨ c = '\r' then skipWS rest line (col + 1)
    else (c :: rest, line, col)

theorem skipWS_length_le : ∀ (r : List Char) (l c : Nat),
    (skipWS r l c).1.length ≤ r.length := by
  intro r
  induction r with
  | nil => intro l c; simp [skipWS]
  | cons a rest ih =>
    intro l c
    simp only [skipWS]
    split
    · exact Nat.le_trans (ih l (c + 1)) (by simp)
    · simp

/-- Single-line comment: consume up to but not including the next
newline. -/
def skipLine : List Char → Nat → Nat → List Char × Nat × Nat
  | [], line, col => ([], line, col)
  | c :: rest, line, col =>
    if c = '\n' then (c :: rest, line, col)
    else skipLine rest line (col + 1)

theorem skipLine_length_le : ∀ (r : List Char) (l c : Nat),
    (skipLine r l c).1.length ≤ r.length := by
  intro r
  induction r with
  | nil => intro l c; simp [skipLine]
  | cons a rest ih =>
    intro l c
    simp only [skipLine]
    split
    · simp
    · exact Nat.le_trans (ih l (c + 1)) (by simp)

/-- Block comment: consume until the closing star-slash (which is
consumed too) or the end of input. -/
def skipBlock : List Char → Nat → Nat → List Char × Nat × Nat
  | [], line, col => ([], line, col)
  | [c], line, col =>
    let p := advancePos c line col
    ([], p.1, p.2)
  | c1 :: c2 :: rest, line, col =>
    if c1 = '*' ∧ c2 = '/' then (rest, line, col + 2)
    else
      let p := advancePos c1 line col
      skipBlock (c2 :: rest) p.1 p.2

theorem skipBlock_length_le : ∀ (r : List Char) (l c : Nat),
    (skipBlock r l c).1.length ≤ r.length := by
  intro r
  induction r with
  | nil => intro l c; simp [skipBlock]
  | cons a rest ih =>
    intro l c
    cases rest with
    | nil => simp [skipBlock]
    | cons b rest2 =>
      simp only [skipBlock]
      split
      · simp
        omega
      · exact Nat.le_trans (ih _ _) (by simp)

/-- Lexer.skip_comment: dispatch on the two comment forms. -/
def skipComment : List Char → Nat → Nat → List Char × Nat × Nat
  | '/' :: '/' :: t, line, col => skipLine ('/' :: '/' :: t) line col
  | '/' :: '*' :: t, line, col => skipBlock t line (col + 2)
  | r, line, col => (r, line, col)

/-- Digit run collection of scan_number. -/
def collectDigits : List Char → List Char × List Char
  | [] => ([], [])
  | c :: rest =>
    if c.isDigit then
      let (ds, r) := collectDigits rest
      (c :: ds, r)
    else ([], c :: rest)

/-- Decimal value of a digit run, as std::stoi computes it. -/
def digitsVal (ds : List Char) : Nat :=
  ds.foldl (fun a c => 10 * a + (c.toNat - 48)) 0

/-- Lexer.scan_number: the token is positioned at the first digit;
std::stoi parses into a 32-bit int, throwing std::out_of_range
(which scan_number does not catch) above INT_MAX. -/
def scanNumber (rest : List Char) (line col : Nat) :
    Except LexFail (Token × List Char × Nat × Nat) :=
  let (ds, r) := collectDigits rest
  if digitsVal ds ≤ 2147483647 then
    .ok (⟨.LITERAL_INT, .vint (digitsVal ds), line, col⟩, r, line,
      col + ds.length)
  else .error .stoiOutOfRange

/-- Identifier character collection (alphanumeric, underscore,
dollar). -/
def collectIdent : List Char → List Char × List Char
  | [] => ([], [])
  | c :: rest =>
    if c.isAlphanum ∨ c = '_' ∨ c = '$' then
      let (cs, r) := collectIdent rest
      (c :: cs, r)
    else ([], c :: rest)

/-- Keyword table of scan_identifier. -/
def keywordType (s : String) : TokenType :=
  if s = "int" then .KEYWORD_INT
  else if s = "void" then .KEYWORD_VOID
  else if s = "if" then .KEYWORD_IF
  else if s = "else" then .KEYWORD_ELSE
  else if s = "while" then .KEYWORD_WHILE
  else if s = "return" then .KEYWORD_RETURN
  else if s = "string" then .KEYWORD_STR
  else .IDENTIFIER

/-- Lexer.scan_identifier: the token is positioned at the first
character; only plain identifiers carry their spelling (keywords
keep the default int 0 payload of the variant). -/
def scanIdentifier (rest : List Char) (line col : Nat) :
    Token × List Char × Nat × Nat :=
  let (cs, r) := collectIdent rest
  let idStr : String := ⟨cs⟩
  let ty := keywordType idStr
  (⟨ty, if ty = .IDENTIFIER then .vstr idStr else .vint 0, line, col⟩, r,
    line, col + cs.length)

/-- String-body scanning loop of the brace lexer's scan_string,
decoding the escapes n, t, r, b, quote and backslash. -/
def scanStringLoop (startLine startCol : Nat) :
    List Char → Nat → Nat → List Char →
    Except LexFail (String × List Char × Nat × Nat)
  | [], _, _, _ =>
    .error (.err ("Unclosed string literal starting at line " ++
      natRepr startLine ++ ", column " ++ natRepr startCol))
  | c :: rest, line, col, acc =>
    let p := advancePos c line col
    if c = '"' then .ok (⟨acc.reverse⟩, rest, p.1, p.2)
    else if c = '\\' then
      match rest with
      | [] =>
        .error (.err ("Unterminated escape sequence starting at line " ++
          natRepr startLine ++ ", column " ++ natRepr startCol))
      | esc :: rest2 =>
        let q := advancePos esc p.1 p.2
        if esc = 'n' then scanStringLoop startLine startCol rest2 q.1 q.2 ('\n' :: acc)
        else if esc = 't' then scanStringLoop startLine startCol rest2 q.1 q.2 ('\t' :: acc)
        else if esc = 'r' then scanStringLoop startLine startCol rest2 q.1 q.2 ('\r' :: acc)
        else if esc = 'b' then
          scanStringLoop startLine startCol rest2 q.1 q.2 (Char.ofNat 8 :: acc)
        else if esc = '"' then scanStringLoop startLine startCol rest2 q.1 q.2 ('"' :: acc)
        else if esc = '\\' then scanStringLoop startLine startCol rest2 q.1 q.2 ('\\' :: acc)
        else
          .error (.err ("Unknown escape sequence \\" ++ ⟨[esc]⟩ ++
            " at line " ++ natRepr q.1 ++ ", column " ++
            natRepr (max (q.2 - 1) 1)))
    else scanStringLoop startLine startCol rest p.1 p.2 (c :: acc)

/-- Brace lexer scan_string: position is the opening quote. -/
def scanString (rest : List Char) (line col : Nat) :
    Except LexFail (Token × List Char × Nat × Nat) :=
  match rest with
  | '"' :: r =>
    match scanStringLoop line col r line (col + 1) [] with
    | .error e => .error e
    | .ok (s, r2, l2, c2) =>
      .ok (⟨.LITERAL_STRING, .vstr s, line, col⟩, r2, l2, c2)
  | r => (.error (.err "scan_string called off a quote"), ()).1

/-- Brace lexer next_token: whitespace, comments, then the
classification switch of Lexer.cpp. -/
def nextTokenB (rest0 : List Char) (line0 col0 : Nat) :
    Except LexFail (Token × List Char × Nat × Nat) :=
  match hws : skipWS rest0 line0 col0 with
  | (rest, line, col) =>
    match hr : rest with
    | [] => .ok (⟨.END_OF_FILE, .vint 0, line, col⟩, [], line, col)
    | c :: rtail =>
      if hcom : c = '/' ∧ (rtail.head? = some '/' ∨ rtail.head? = some '*') then
        match hsc : skipComment (c :: rtail) line col with
        | (r2, l2, c2) => nextTokenB r2 l2 c2
      else if c.isDigit then scanNumber rest line col
      else if c.isAlpha ∨ c = '_' then .ok (scanIdentifier rest line col)
      else if c = '"' then scanString rest line col
      else if c = '{' then .ok (⟨.LBRACE, .vint 0, line, col⟩, rtail, line, col + 1)
      else if c = '}' then .ok (⟨.RBRACE, .vint 0, line, col⟩, rtail, line, col + 1)
      else if c = ';' then .ok (⟨.SEMICOLON, .vint 0, line, col⟩, rtail, line, col + 1)
      else if c = '(' then .ok (⟨.LPAREN, .vint 0, line, col⟩, rtail, line, col + 1)
      else if c = ')' then .ok (⟨.RPAREN, .vint 0, line, col⟩, rtail, line, col + 1)
      else if c = '\n' then .ok (⟨.NEWLINE, .vint 0, line, col⟩, rtail, line + 1, 1)
      else if c = ' ' ∨ c = '\t' ∨ c = '\r' then nextTokenB rtail line (col + 1)
      else if c = '+' then .ok (⟨.OP_PLUS, .vint 0, line, col⟩, rtail, line, col + 1)
      else if c = '-' then .ok (⟨.OP_MINUS, .vint 0, line, col⟩, rtail, line, col + 1)
      else if c = '*' then .ok (⟨.OP_MULTIPLY, .vint 0, line, col⟩, rtail, line, col + 1)
      else if c = '/' then .ok (⟨.OP_DIVIDE, .vint 0, line, col⟩, rtail, line, col + 1)
      else if c = '<' then
        match rtail with
        | '=' :: r2 => .ok (⟨.OP_LESS_EQ, .vint 0, line, col⟩, r2, line, col + 2)
        | _ => .ok (⟨.OP_LESS, .vint 0, line, col⟩, rtail, line, col + 1)
      else if c = '>' then
        match rtail with
        | '=' :: r2 => .ok (⟨.OP_GREATER_EQ, .vint 0, line, col⟩, r2, line, col + 2)
        | _ => .ok (⟨.OP_GREATER, .vint 0, line, col⟩, rtail, line, col + 1)
      else if c = ':' then .ok (⟨.COLON, .vint 0, line, col⟩, rtail, line, col + 1)
      else if c = ',' then .ok (⟨.COMMA, .vint 0, line, col⟩, rtail, line, col + 1)
      else if c = '!' then
        match rtail with
        | '=' :: r2 => .ok (⟨.OP_NOT_EQUAL, .vint 0, line, col⟩, r2, line, col + 2)
        | _ => .ok (⟨.OP_NOT, .vint 0, line, col⟩, rtail, line, col + 1)
      else if c = '=' then
        match rtail with
        | '=' :: r2 => .ok (⟨.OP_EQUAL, .vint 0, line, col⟩, r2, line, col + 2)
        | _ => .ok (⟨.OP_ASSIGN, .vint 0, line, col⟩, rtail, line, col + 1)
      else .error (.err ("Unexpected character: " ++ ⟨[c]⟩))
  termination_by rest0.length
  decreasing_by
  · have h1 : (c :: rtail).length ≤ rest0.length := by
      have hle := skipWS_length_le rest0 line0 col0
      rw [hws] at hle
      simpa using hle
    obtain ⟨hc, hd⟩ := hcom
    subst hc
    rcases hhd : rtail with _ | ⟨d, t⟩
    · rw [hhd] at hd
      simp at hd
    · rw [hhd] at hd
      simp only [List.head?] at hd
      rw [hhd] at hsc h1
      have h2 : r2.length < ('/' :: d :: t).length := by
        rcases hd with hd | hd <;> (rw [Option.some_inj] at hd; subst hd)
        · have hsl : skipComment ('/' :: '/' :: t) line col =
              skipLine t line (col + 2) := by
            simp [skipComment, skipLine]
          rw [hsl] at hsc
          have hll := skipLine_length_le t line (col + 2)
          rw [hsc] at hll
          simp at hll ⊢
          omega
        · have hsb : skipComment ('/' :: '*' :: t) line col =
              skipBlock t line (col + 2) := by
            simp [skipComment]
          rw [hsb] at hsc
          have hbl := skipBlock_length_le t line (col + 2)
          rw [hsc] at hbl
          simp at hbl ⊢
          omega
      simp at h1 h2 ⊢
      omega
  · have h1 : (c :: rtail).length ≤ rest0.length := by
      have hle := skipWS_length_le rest0 line0 col0
      rw [hws] at hle
      simpa using hle
    simp at h1
    omega

/-- Brace lexer Lex: collect tokens until END_OF_FILE, then append
the final END_OF_FILE token.  The progress guard mirrors the fact
that every non-EOF token consumes at least one character; its else
branch is unreachable. -/
def lexLoopB (rest : List Char) (line col : Nat) :
    Except LexFail (List Token) :=
  if rest.isEmpty then .ok [⟨.END_OF_FILE, .vint 0, line, col⟩]
  else
    match nextTokenB rest line col with
    | .error e => .error e
    | .ok (t, r1, l1, c1) =>
      if t.type = .END_OF_FILE then .ok [⟨.END_OF_FILE, .vint 0, l1, c1⟩]
      else if h : r1.length < rest.length then
        match lexLoopB r1 l1 c1 with
        | .error e => .error e
        | .ok ts => .ok (t :: ts)
      else .error (.err "lexer made no progress")
  termination_by rest.length

/-- Lexing a whole source string with the brace-delimited lexer. -/
def braceLex (src : String) : Except LexFail (List Token) :=
  lexLoopB src.data 1 1

/-! ## Lexer, indentation variant (src/unnamed/part_009, second copy)

This divergent copy implements INDENT/DEDENT handling.  Its
handle_indentation keeps the queue of pending DEDENT tokens in a
function-local static deque, which outlives the Lexer object; the
embedding threads that process-global queue in and out explicitly. -/

/-- Indentation-variant scan_string body loop (no escape handling). -/
def scanStringILoop : List Char → Nat → Nat → List Char →
    Except LexFail (String × List Char × Nat × Nat)
  | [], line, col, _ =>
    .error (.err ("Unclosed string literal at line " ++ natRepr line ++
      ", column " ++ natRepr col))
  | c :: rest, line, col, acc =>
    if c = '"' then .ok (⟨acc.reverse⟩, rest, line, col + 1)
    else
      let p := advancePos c line col
      scanStringILoop rest p.1 p.2 (c :: acc)

/-- Indentation-variant scan_string: the opening quote is consumed
before make_token, so the token position is one past the quote. -/
def scanStringI (rest : List Char) (line col : Nat) :
    Except LexFail (Token × List Char × Nat × Nat) :=
  match rest with
  | '"' :: r =>
    match scanStringILoop r line (col + 1) [] with
    | .error e => .error e
    | .ok (s, r2, l2, c2) =>
      .ok (⟨.LITERAL_STRING, .vstr s, line, col + 1⟩, r2, l2, c2)
  | _ => .error (.err "scan_string called off a quote")

/-- Blank-line skipping of handle_indentation: consume consecutive
newlines. -/
def skipBlanks : List Char → Nat → Nat → List Char × Nat × Nat
  | [], l, c => ([], l, c)
  | ch :: r, l, c =>
    if ch = '\n' then skipBlanks r (l + 1) 1 else (ch :: r, l, c)

/-- Indentation counting loop of handle_indentation: spaces count 1,
tabs count 4; as soon as both a tab and a space have been seen the
mixed-indentation error is thrown (reporting column_ - 1). -/
def countIndent : List Char → Nat → Nat → Bool → Bool → Nat →
    Except LexFail (Nat × List Char × Nat × Nat)
  | [], l, c, _, _, ind => .ok (ind, [], l, c)
  | ch :: r, l, c, hasTab, hasSpace, ind =>
    if ch = ' ' ∨ ch = '\t' then
      let hasTab2 := hasTab || (ch = '\t')
      let hasSpace2 := hasSpace || (ch = ' ')
      if hasTab2 ∧ hasSpace2 then
        .error (.err ("Mixed tabs and spaces at line " ++ natRepr l ++
          ", column " ++ natRepr (c + 1 - 1)))
      else
        countIndent r l (c + 1) hasTab2 hasSpace2
          (ind + (if ch = '\t' then 4 else 1))
    else .ok (ind, ch :: r, l, c)

/-- Dedent pop loop: pop levels greater than the new indentation,
enqueuing one DEDENT per pop. -/
def popDedents (indent line col : Nat) : List Nat → List Token →
    List Nat × List Token
  | [], q => ([], q)
  | top :: rest, q =>
    if indent < top then
      popDedents indent line col rest (q ++ [⟨.DEDENT, .vstr "", line, col⟩])
    else (top :: rest, q)

/-- Lexer.handle_indentation of the indentation variant.  The pending
queue is the function-local static deque: it survives across Lexer
objects, so it enters and leaves as explicit state. -/
def handleIndentation (rest : List Char) (line col : Nat)
    (stack : List Nat) (pending : List Token) :
    Except LexFail (Token × List Char × Nat × Nat × List Nat × List Token) :=
  match pending with
  | t :: ps => .ok (t, rest, line, col, stack, ps)
  | [] =>
    let s1 := match rest with
      | '\n' :: r => (r, line + 1, 1)
      | r => (r, line, col)
    let s2 := skipBlanks s1.1 s1.2.1 s1.2.2
    match countIndent s2.1 s2.2.1 s2.2.2 false false 0 with
    | .error e => .error e
    | .ok (indent, r3, l3, c3) =>
      if r3.isEmpty ∨ r3.head? = some '\n' then
        .ok (⟨.NEWLINE, .vstr "", l3, c3⟩, r3, l3, c3, stack, [])
      else
        match stack with
        | [] => .error (.err "Internal lexer error: empty indent stack")
        | top :: stk =>
          if indent > top then
            .ok (⟨.INDENT, .vstr "", l3, c3⟩, r3, l3, c3,
              indent :: top :: stk, [])
          else if indent < top then
            match hpop : popDedents indent l3 c3 (top :: stk) [] with
            | (stack2, q) =>
              if stack2.head? = some indent then
                match q with
                | d :: qs => .ok (d, r3, l3, c3, stack2, qs)
                | [] => .error (.err "pending dedent queue empty")
              else
                .error (.err ("Invalid dedent at line " ++ natRepr l3 ++
                  ", column " ++ natRepr c3))
          else
            .ok (⟨.NEWLINE, .vstr "", l3, c3⟩, r3, l3, c3, top :: stk, [])

/-- Indentation-variant next_token. -/
def nextTokenI (rest0 : List Char) (line0 col0 : Nat)
    (stack : List Nat) (pending : List Token) :
    Except LexFail (Token × List Char × Nat × Nat × List Nat × List Token) :=
  match hws : skipWS rest0 line0 col0 with
  | (rest, line, col) =>
    match hr : rest with
    | [] => .ok (⟨.END_OF_FILE, .vint 0, line, col⟩, [], line, col, stack, pending)
    | c :: rtail =>
      if hcom : c = '/' ∧ (rtail.head? = some '/' ∨ rtail.head? = some '*') then
        match hsc : skipComment (c :: rtail) line col with
        | (r2, l2, c2) => nextTokenI r2 l2 c2 stack pending
      else if c.isDigit then
        match scanNumber rest line col with
        | .error e => .error e
        | .ok (t, r2, l2, c2) => .ok (t, r2, l2, c2, stack, pending)
      else if c.isAlpha ∨ c = '_' then
        match scanIdentifier rest line col with
        | (t, r2, l2, c2) => .ok (t, r2, l2, c2, stack, pending)
      else if c = '"' then
        match scanStringI rest line col with
        | .error e => .error e
        | .ok (t, r2, l2, c2) => .ok (t, r2, l2, c2, stack, pending)
      else if c = '(' then .ok (⟨.LPAREN, .vint 0, line, col⟩, rtail, line, col + 1, stack, pending)
      else if c = ')' then .ok (⟨.RPAREN, .vint 0, line, col⟩, rtail, line, col + 1, stack, pending)
      else if c = '\n' then handleIndentation rest line col stack pending
      else if c = ' ' ∨ c = '\t' ∨ c = '\r' then nextTokenI rtail line (col + 1) stack pending
      else if c = '+' then .ok (⟨.OP_PLUS, .vint 0, line, col⟩, rtail, line, col + 1, stack, pending)
      else if c = '-' then .ok (⟨.OP_MINUS, .vint 0, line, col⟩, rtail, line, col + 1, stack, pending)
      else if c = '*' then .ok (⟨.OP_MULTIPLY, .vint 0, line, col⟩, rtail, line, col + 1, stack, pending)
      else if c = '/' then .ok (⟨.OP_DIVIDE, .vint 0, line, col⟩, rtail, line, col + 1, stack, pending)
      else if c = '<' then .ok (⟨.OP_LESS, .vint 0, line, col⟩, rtail, line, col + 1, stack, pending)
      else if c = '>' then .ok (⟨.OP_GREATER, .vint 0, line, col⟩, rtail, line, col + 1, stack, pending)
      else if c = ':' then .ok (⟨.COLON, .vint 0, line, col⟩, rtail, line, col + 1, stack, pending)
      else if c = ',' then .ok (⟨.COMMA, .vint 0, line, col⟩, rtail, line, col + 1, stack, pending)
      else if c = '=' then
        match rtail with
        | '=' :: r2 => .ok (⟨.OP_EQUAL, .vint 0, line, col⟩, r2, line, col + 2, stack, pending)
        | _ => .ok (⟨.OP_ASSIGN, .vint 0, line, col⟩, rtail, line, col + 1, stack, pending)
      else .error (.err ("Unexpected character: " ++ ⟨[c]⟩))
  termination_by rest0.length
  decreasing_by
  · have h1 : (c :: rtail).length ≤ rest0.length := by
      have hle := skipWS_length_le rest0 line0 col0
      rw [hws] at hle
      simpa using hle
    obtain ⟨hc, hd⟩ := hcom
    subst hc
    rcases hhd : rtail with _ | ⟨d, t⟩
    · rw [hhd] at hd
      simp at hd
    · rw [hhd] at hd
      simp only [List.head?] at hd
      rw [hhd] at hsc h1
      have h2 : r2.length < ('/' :: d :: t).length := by
        rcases hd with hd | hd <;> (rw [Option.some_inj] at hd; subst hd)
        · have hsl : skipComment ('/' :: '/' :: t) line col =
              skipLine t line (col + 2) := by
            simp [skipComment, skipLine]
          rw [hsl] at hsc
          have hll := skipLine_length_le t line (col + 2)
          rw [hsc] at hll
          simp at hll ⊢
          omega
        · have hsb : skipComment ('/' :: '*' :: t) line col =
              skipBlock t line (col + 2) := by
            simp [skipComment]
          rw [hsb] at hsc
          have hbl := skipBlock_length_le t line (col + 2)
          rw [hsc] at hbl
          simp at hbl ⊢
          omega
      simp at h1 h2 ⊢
      omega
  · have h1 : (c :: rtail).length ≤ rest0.length := by
      have hle := skipWS_length_le rest0 line0 col0
      rw [hws] at hle
      simpa using hle
    simp at h1
    omega

/-- Indentation-variant Lex: as in the source, a NEWLINE token
(line_-1, column_-1) is inserted in front of every INDENT or DEDENT
token.  The progress guard mirrors the fact that every step either
consumes input or shrinks the pending queue; its else branch is
unreachable. -/
def lexLoopI (rest : List Char) (line col : Nat) (stack : List Nat)
    (pending : List Token) : Except LexFail (List Token × List Token) :=
  if rest.isEmpty then .ok ([⟨.END_OF_FILE, .vint 0, line, col⟩], pending)
  else
    match nextTokenI rest line col stack pending with
    | .error e => .error e
    | .ok (t, r1, l1, c1, stk1, p1) =>
      if t.type = .END_OF_FILE then .ok ([⟨.END_OF_FILE, .vint 0, l1, c1⟩], p1)
      else
        if hprog : r1.length < rest.length ∨
            (r1.length = rest.length ∧ p1.length < pending.length) then
          match lexLoopI r1 l1 c1 stk1 p1 with
          | .error e => .error e
          | .ok (ts, pfin) =>
            if t.type = .INDENT ∨ t.type = .DEDENT then
              .ok (⟨.NEWLINE, .vint 0, l1 - 1, c1 - 1⟩ :: t :: ts, pfin)
            else
              .ok (t :: ts, pfin)
        else .error (.err "lexer made no progress")
  termination_by (rest.length, pending.length)
  decreasing_by
    simp_wf
    rcases hprog with h | ⟨h1, h2⟩
    · exact Prod.Lex.left _ _ h
    · rw [h1]
      exact Prod.Lex.right _ h2

/-- Lexing a whole source string with the indentation-variant lexer:
the result is the token list together with the final contents of the
process-global pending-DEDENT queue. -/
def indentLex (src : String) (pending : List Token) :
    Except LexFail (List Token × List Token) :=
  lexLoopI src.data 1 1 [0] pending

theorem collectDigits_spec (ds : List Char) (hdig : ∀ c ∈ ds, c.isDigit) :
    ∀ (r : List Char), (∀ c, r.head? = some c → ¬ c.isDigit) →
      collectDigits (ds ++ r) = (ds, r) := by
  induction ds with
  | nil =>
    intro r hmax
    cases r with
    | nil => rfl
    | cons c t =>
      simp only [List.nil_append, collectDigits]
      rw [if_neg]
      exact hmax c rfl
  | cons d ds ih =>
    intro r hmax
    have hd : d.isDigit = true := hdig d (List.mem_cons_self d ds)
    have ht := ih (fun c hc => hdig c (List.mem_cons_of_mem d hc)) r hmax
    simp only [List.cons_append, collectDigits, hd, if_true, List.append_eq, ht]

/-- C6, counterexample: the lexer collects the maximal digit run but
parses it with std::stoi into a 32-bit int, catching only
std::invalid_argument; on the ten-digit run 2147483648 the
std::out_of_range raised by stoi escapes, so no LITERAL_INT token is
produced and the failure is not the line/column-carrying lexical
error; the claimed i64 payload (digits up to 64-bit values accepted)
is false. -/
theorem c6_counterexample :
    braceLex "2147483648" = .error .stoiOutOfRange ∧
    (∀ m, (LexFail.stoiOutOfRange : LexFail) ≠ .err m) := by
  refine ⟨?_, fun m h => ?_⟩
  · simp [braceLex, lexLoopB, nextTokenB, scanNumber, collectDigits,
      digitsVal, skipWS, skipComment, advancePos]
  · cases h

/-- C6, amended: for every maximal contiguous digit run that begins a
token scan, scan_number consumes exactly that run; when its decimal
value fits a 32-bit int the result is a single LITERAL_INT token
positioned at the first digit whose payload is that value, and
otherwise std::out_of_range escapes uncaught, without line or column
information. -/
theorem c6_scan_number_int32 (ds r : List Char) (line col : Nat)
    (hdig : ∀ c ∈ ds, c.isDigit)
    (hmax : ∀ c, r.head? = some c → ¬ c.isDigit) :
    (digitsVal ds ≤ 2147483647 →
      scanNumber (ds ++ r) line col =
        .ok (⟨.LITERAL_INT, .vint (digitsVal ds), line, col⟩, r, line,
          col + ds.length)) ∧
    (2147483647 < digitsVal ds →
      scanNumber (ds ++ r) line col = .error .stoiOutOfRange) := by
  have hcd := collectDigits_spec ds hdig r hmax
  constructor
  · intro hle
    unfold scanNumber
    rw [hcd]
    simp [hle]
  · intro hgt
    unfold scanNumber
    rw [hcd]
    simp only []
    rw [if_neg (by omega)]

/-- C6, witness: the amended theorem applied to the digit run 42
followed by a letter. -/
theorem c6_witness :
    scanNumber ['4', '2', 'x'] 1 1 =
      .ok (⟨.LITERAL_INT, .vint 42, 1, 1⟩, ['x'], 1, 3) := by
  have h := (c6_scan_number_int32 ['4', '2'] ['x'] 1 1
    (by decide) (by intro c hc; cases hc; decide)).1 (by decide)
  exact h

/-- C7, counterexample: the pipeline lexer (src/src/Lexer.cpp, the
one main.cpp links) treats tabs and spaces as skippable whitespace
everywhere, so a source whose second line is indented with a space
followed by a tab lexes successfully; and even the indentation
variant skips mixed indentation on the very first line, since no
newline precedes it.  The claim that such sources always fail with a
lexical error is false. -/
theorem c7_counterexample :
    braceLex "a\n \tb" =
      .ok [⟨.IDENTIFIER, .vstr "a", 1, 1⟩, ⟨.NEWLINE, .vint 0, 1, 2⟩,
        ⟨.IDENTIFIER, .vstr "b", 2, 3⟩, ⟨.END_OF_FILE, .vint 0, 2, 4⟩] ∧
    indentLex " \tx" [] =
      .ok ([⟨.IDENTIFIER, .vstr "x", 1, 3⟩, ⟨.END_OF_FILE, .vint 0, 1, 4⟩],
        []) := by
  constructor
  · simp [braceLex, lexLoopB, nextTokenB, scanIdentifier, collectIdent,
      keywordType, skipWS, skipComment, advancePos]
  · simp [indentLex, lexLoopI, nextTokenI, scanIdentifier, collectIdent,
      keywordType, skipWS, advancePos]

/-- C7, amended: only the indentation-variant lexer rejects mixed
indentation, and only on lines it scans after consuming a newline:
handle_indentation raises the mixed-tabs-and-spaces error as soon as
the leading whitespace of the next line contains both a space and a
tab, in either order; the pipeline lexer never errors on
indentation, and the first line of the input is never checked. -/
theorem c7_mixed_indentation_after_newline_fails (r : List Char)
    (line col : Nat) (stack : List Nat) :
    (∃ m, handleIndentation ('\n' :: ' ' :: '\t' :: r) line col stack [] =
      .error (.err m)) ∧
    (∃ m, handleIndentation ('\n' :: '\t' :: ' ' :: r) line col stack [] =
      .error (.err m)) := by
  constructor
  · refine ⟨"Mixed tabs and spaces at line " ++ natRepr (line + 1) ++
      ", column " ++ natRepr 2, ?_⟩
    simp [handleIndentation, skipBlanks, countIndent]
  · refine ⟨"Mixed tabs and spaces at line " ++ natRepr (line + 1) ++
      ", column " ++ natRepr 2, ?_⟩
    simp [handleIndentation, skipBlanks, countIndent]

/-- C10: Lexer.handle_indentation stores the pending DEDENT queue in
a function-local static deque, which outlives any single Lexer
object.  Lexing a source that ends while dedents are still queued
(the last one is never delivered because no further newline arrives)
leaves a DEDENT in the process-global queue, and an independent
Lexer constructed afterwards emits that stale DEDENT (plus the
synthetic NEWLINE) at its first newline: the token sequence is not a
function of the constructor source string alone. -/
theorem c10_static_pending_dedents_leak :
    (∃ toks, indentLex "a\n\tb\n\t\tc\nd" [] =
      .ok (toks, [⟨.DEDENT, .vstr "", 4, 1⟩])) ∧
    indentLex "x\ny" [⟨.DEDENT, .vstr "", 4, 1⟩] ≠ indentLex "x\ny" [] := by
  have h1 : indentLex "a\n\tb\n\t\tc\nd" [] =
      .ok ([⟨.IDENTIFIER, .vstr "a", 1, 1⟩, ⟨.NEWLINE, .vint 0, 1, 1⟩,
        ⟨.INDENT, .vstr "", 2, 2⟩, ⟨.IDENTIFIER, .vstr "b", 2, 2⟩,
        ⟨.NEWLINE, .vint 0, 2, 2⟩, ⟨.INDENT, .vstr "", 3, 3⟩,
        ⟨.IDENTIFIER, .vstr "c", 3, 3⟩, ⟨.NEWLINE, .vint 0, 3, 0⟩,
        ⟨.DEDENT, .vstr "", 4, 1⟩, ⟨.IDENTIFIER, .vstr "d", 4, 1⟩,
        ⟨.END_OF_FILE, .vint 0, 4, 2⟩], [⟨.DEDENT, .vstr "", 4, 1⟩]) := by
    simp [indentLex, lexLoopI, nextTokenI, handleIndentation, countIndent,
      skipBlanks, popDedents, scanIdentifier, collectIdent, keywordType,
      skipWS, advancePos]
  have h2 : indentLex "x\ny" [⟨.DEDENT, .vstr "", 4, 1⟩] =
      .ok ([⟨.IDENTIFIER, .vstr "x", 1, 1⟩, ⟨.NEWLINE, .vint 0, 0, 1⟩,
        ⟨.DEDENT, .vstr "", 4, 1⟩, ⟨.NEWLINE, .vstr "", 2, 1⟩,
        ⟨.IDENTIFIER, .vstr "y", 2, 1⟩, ⟨.END_OF_FILE, .vint 0, 2, 2⟩],
        []) := by
    simp [indentLex, lexLoopI, nextTokenI, handleIndentation, countIndent,
      skipBlanks, popDedents, scanIdentifier, collectIdent, keywordType,
      skipWS, advancePos]
  have h3 : indentLex "x\ny" [] =
      .ok ([⟨.IDENTIFIER, .vstr "x", 1, 1⟩, ⟨.NEWLINE, .vstr "", 2, 1⟩,
        ⟨.IDENTIFIER, .vstr "y", 2, 1⟩, ⟨.END_OF_FILE, .vint 0, 2, 2⟩],
        []) := by
    simp [indentLex, lexLoopI, nextTokenI, handleIndentation, countIndent,
      skipBlanks, popDedents, scanIdentifier, collectIdent, keywordType,
      skipWS, advancePos]
  refine ⟨⟨_, h1⟩, ?_⟩
  rw [h2, h3]
  intro hco
  simp at hco

end MiniC
